import Mathlib

/-!
# AVC timing and HRD descriptor (TSDuck)

A shallow embedding of `tsAVCTimingAndHRDDescriptor.cpp`:
binary serialization, binary deserialization and the static display routine,
together with the properties of the binary layout.

Machine integers are natural numbers; a `uint32_t` is reduced modulo `2 ^ 32`
where it is written, a `uint8_t` modulo `2 ^ 8` where it is read, and `size_t`
arithmetic wraps modulo `2 ^ 64`.
-/

set_option autoImplicit false

namespace AVCTimingAndHRD

/-! ## Bit-stream buffer -/

/-- The `n` low-order bits of `v`, most significant bit first. -/
def bitsMSB (v : Nat) : Nat → List Bool
  | 0 => []
  | n + 1 => decide (v / 2 ^ n % 2 = 1) :: bitsMSB v n

/-- The unsigned value of a bit string read most significant bit first. -/
def natOfBits (bs : List Bool) : Nat :=
  bs.foldl (fun acc b => 2 * acc + b.toNat) 0

/-- Modelled from the spec: the error taxonomy of the bit-stream reader, which
lives in the buffer class and not in the descriptor source file. The only
condition a read can signal is exhaustion of the byte source. -/
inductive BufferError where
  | underflow
deriving DecidableEq, Repr

/-- Modelled from the spec: the bit-stream buffer `PSIBuffer`, whose class is
not part of the descriptor source file. The buffer is a first-in first-out
sequence of bits: writes append at the end, reads consume from the front, and
bits are grouped into bytes most significant bit first. -/
structure PSIBuffer where
  bits : List Bool
deriving DecidableEq, Repr

namespace PSIBuffer

/-- Modelled from the spec: an empty buffer, ready for writing. -/
def empty : PSIBuffer := ⟨[]⟩

/-- Modelled from the spec: `putBit`, appending one bit. -/
def putBit (buf : PSIBuffer) (b : Bool) : PSIBuffer :=
  ⟨buf.bits ++ [b]⟩

/-- Modelled from the spec: `putBits`, appending the `n` low-order bits of `v`,
most significant bit first. -/
def putBits (buf : PSIBuffer) (v n : Nat) : PSIBuffer :=
  ⟨buf.bits ++ bitsMSB v n⟩

/-- Modelled from the spec: `putUInt32`, appending a 32-bit big-endian unsigned
integer. Only the value modulo `2 ^ 32` is representable. -/
def putUInt32 (buf : PSIBuffer) (v : Nat) : PSIBuffer :=
  ⟨buf.bits ++ bitsMSB (v % 2 ^ 32) 32⟩

/-- Modelled from the spec: `getBool`, reading one bit; signals underflow when
no bit is left. -/
def getBool (buf : PSIBuffer) : Except BufferError (Bool × PSIBuffer) :=
  match buf.bits with
  | [] => .error .underflow
  | b :: rest => .ok (b, ⟨rest⟩)

/-- Modelled from the spec: `skipBits`, discarding `n` bits without looking at
their value; signals underflow when fewer than `n` bits are left. -/
def skipBits (buf : PSIBuffer) (n : Nat) : Except BufferError (Unit × PSIBuffer) :=
  if n ≤ buf.bits.length then .ok ((), ⟨buf.bits.drop n⟩) else .error .underflow

/-- Modelled from the spec: `getUInt32`, reading a 32-bit big-endian unsigned
integer; signals underflow when fewer than 32 bits are left. -/
def getUInt32 (buf : PSIBuffer) : Except BufferError (Nat × PSIBuffer) :=
  if 32 ≤ buf.bits.length then .ok (natOfBits (buf.bits.take 32), ⟨buf.bits.drop 32⟩)
  else .error .underflow

/-- Bits to bytes, eight at a time, most significant bit first. A trailing
group of fewer than eight bits is completed with zero bits; the descriptor
never produces one. -/
def packBytes : List Bool → List Nat
  | b7 :: b6 :: b5 :: b4 :: b3 :: b2 :: b1 :: b0 :: rest =>
      natOfBits [b7, b6, b5, b4, b3, b2, b1, b0] :: packBytes rest
  | [] => []
  | b :: rest => [natOfBits ((b :: rest) ++ List.replicate (7 - rest.length) false)]

/-- Bytes to bits: each byte contributes its eight bits, most significant bit
first. -/
def unpackBytes : List Nat → List Bool
  | [] => []
  | x :: rest => bitsMSB x 8 ++ unpackBytes rest

/-- Modelled from the spec: the byte sequence held by a buffer after writing. -/
def toBytes (buf : PSIBuffer) : List Nat := packBytes buf.bits

/-- Modelled from the spec: a buffer opened for reading over a byte span. -/
def ofBytes (data : List Nat) : PSIBuffer := ⟨unpackBytes data⟩

end PSIBuffer

/-! ## The descriptor -/

/-- The in-memory descriptor: the seven public fields of
`ts::AVCTimingAndHRDDescriptor`. -/
structure Record where
  hrd_management_valid : Bool
  N_90khz : Option Nat
  K_90khz : Option Nat
  num_units_in_tick : Option Nat
  fixed_frame_rate : Bool
  temporal_poc : Bool
  picture_to_display_conversion : Bool
deriving DecidableEq, Repr

/-- The default constructor: booleans false, optionals unset. -/
def Record.default : Record :=
  { hrd_management_valid := false, N_90khz := none, K_90khz := none,
    num_units_in_tick := none, fixed_frame_rate := false, temporal_poc := false,
    picture_to_display_conversion := false }

/-- The method `clearContent`: every field back to its default. -/
def clearContent (_self : Record) : Record :=
  { hrd_management_valid := false, N_90khz := none, K_90khz := none,
    num_units_in_tick := none, fixed_frame_rate := false, temporal_poc := false,
    picture_to_display_conversion := false }

/-- The three optional fields hold 32-bit unsigned values. -/
def Record.isUInt32 (r : Record) : Prop :=
  (∀ v, r.N_90khz = some v → v < 2 ^ 32) ∧
  (∀ v, r.K_90khz = some v → v < 2 ^ 32) ∧
  (∀ v, r.num_units_in_tick = some v → v < 2 ^ 32)

/-- The method `serializePayload`. -/
def serializePayload (self : Record) (buf : PSIBuffer) : PSIBuffer :=
  let has_90kHz := self.N_90khz.isSome && self.K_90khz.isSome
  let info_present := self.num_units_in_tick.isSome
  let buf := buf.putBit self.hrd_management_valid
  let buf := buf.putBits 0xFF 6
  let buf := buf.putBit info_present
  let buf :=
    if info_present then
      let buf := buf.putBit has_90kHz
      let buf := buf.putBits 0xFF 7
      let buf :=
        if has_90kHz then
          let buf := buf.putUInt32 (self.N_90khz.getD 0)
          buf.putUInt32 (self.K_90khz.getD 0)
        else buf
      buf.putUInt32 (self.num_units_in_tick.getD 0)
    else buf
  let buf := buf.putBit self.fixed_frame_rate
  let buf := buf.putBit self.temporal_poc
  let buf := buf.putBit self.picture_to_display_conversion
  buf.putBits 0xFF 5

/-- The method `deserializePayload`, updating the fields of `self` from the
buffer. A read that underflows aborts the whole operation. -/
def deserializePayload (self : Record) (buf : PSIBuffer) :
    Except BufferError (Record × PSIBuffer) := do
  let (hrd, buf) ← buf.getBool
  let self := { self with hrd_management_valid := hrd }
  let (_, buf) ← buf.skipBits 6
  let (info_present, buf) ← buf.getBool
  let (self, buf) ←
    if info_present then do
      let (has_90kHz, buf) ← buf.getBool
      let (_, buf) ← buf.skipBits 7
      let (self, buf) ←
        if has_90kHz then do
          let (n, buf) ← buf.getUInt32
          let (k, buf) ← buf.getUInt32
          pure ({ self with N_90khz := some n, K_90khz := some k }, buf)
        else pure (self, buf)
      let (t, buf) ← buf.getUInt32
      pure ({ self with num_units_in_tick := some t }, buf)
    else pure (self, buf)
  let (ffr, buf) ← buf.getBool
  let self := { self with fixed_frame_rate := ffr }
  let (tpoc, buf) ← buf.getBool
  let self := { self with temporal_poc := tpoc }
  let (ptdc, buf) ← buf.getBool
  let self := { self with picture_to_display_conversion := ptdc }
  let (_, buf) ← buf.skipBits 5
  pure (self, buf)

/-- Modelled from the spec: `serialize`, the payload bytes of a record; the
wrapper of the descriptor base class is not in the source file. -/
def serialize (r : Record) : List Nat :=
  (serializePayload r PSIBuffer.empty).toBytes

/-- Modelled from the spec: `deserialize`, decoding a byte span into a freshly
cleared record; the wrapper of the descriptor base class is not in the source
file. The result carries the decoded record and the buffer with the bits that
were not consumed. -/
def deserialize (data : List Nat) : Except BufferError (Record × PSIBuffer) :=
  deserializePayload (clearContent Record.default) (PSIBuffer.ofBytes data)

/-- The coupling invariant of the data model: `N_90khz` and `K_90khz` are both
set or both unset, and they are unset whenever `num_units_in_tick` is unset. -/
def Record.coupled (r : Record) : Prop :=
  (r.N_90khz.isSome = r.K_90khz.isSome) ∧
  (r.num_units_in_tick.isSome = false → r.N_90khz.isSome = false ∧ r.K_90khz.isSome = false)

/-- The four bytes of a 32-bit unsigned integer, most significant byte first. -/
def be32 (v : Nat) : List Nat :=
  [v / 2 ^ 24 % 256, v / 2 ^ 16 % 256, v / 2 ^ 8 % 256, v % 256]

/-- Reference layout, first byte: `hrd_management_valid`, six reserved bits
set to 1, `info_present`. -/
def headerByte (r : Record) : Nat :=
  (r.hrd_management_valid.toNat <<< 7) ||| 0x7E ||| r.num_units_in_tick.isSome.toNat

/-- Reference layout, info section: present only with `info_present`; the byte
with `has_90kHz` and seven reserved bits set to 1, the optional 90 kHz pair,
the tick count. -/
def infoBytes (r : Record) : List Nat :=
  let info_present := r.num_units_in_tick.isSome
  let has_90kHz := r.N_90khz.isSome && r.K_90khz.isSome
  if info_present then
    [(has_90kHz.toNat <<< 7) ||| 0x7F] ++
    (if has_90kHz then be32 (r.N_90khz.getD 0) ++ be32 (r.K_90khz.getD 0) else []) ++
    be32 (r.num_units_in_tick.getD 0)
  else []

/-- Reference layout, last byte: the three flags and five reserved bits set to
1. -/
def flagsByte (r : Record) : Nat :=
  (r.fixed_frame_rate.toNat <<< 7) ||| (r.temporal_poc.toNat <<< 6) |||
    (r.picture_to_display_conversion.toNat <<< 5) ||| 0x1F

/-- The reference byte layout of the binary form, following the layout table
of the specification and not the code. -/
def serializeRef (r : Record) : List Nat :=
  [headerByte r] ++ infoBytes r ++ [flagsByte r]

/-- The record obtained by a binary round trip: values reduced to 32 bits, and
the 90 kHz pair kept only when all three optionals are set. -/
def Record.normalize (r : Record) : Record :=
  { r with
    N_90khz :=
      if r.num_units_in_tick.isSome && (r.N_90khz.isSome && r.K_90khz.isSome)
      then r.N_90khz.map (· % 2 ^ 32) else none
    K_90khz :=
      if r.num_units_in_tick.isSome && (r.N_90khz.isSome && r.K_90khz.isSome)
      then r.K_90khz.map (· % 2 ^ 32) else none
    num_units_in_tick := r.num_units_in_tick.map (· % 2 ^ 32) }

/-- The bits appended by `serializePayload`, section by section. -/
def payloadBits (r : Record) : List Bool :=
  r.hrd_management_valid :: (bitsMSB 0xFF 6 ++ r.num_units_in_tick.isSome ::
    ((if r.num_units_in_tick.isSome then
        (r.N_90khz.isSome && r.K_90khz.isSome) :: (bitsMSB 0xFF 7 ++
          ((if r.N_90khz.isSome && r.K_90khz.isSome then
              bitsMSB (r.N_90khz.getD 0 % 2 ^ 32) 32 ++ bitsMSB (r.K_90khz.getD 0 % 2 ^ 32) 32
            else []) ++ bitsMSB (r.num_units_in_tick.getD 0 % 2 ^ 32) 32))
      else []) ++
    (r.fixed_frame_rate :: r.temporal_poc :: r.picture_to_display_conversion ::
      bitsMSB 0xFF 5)))

/-! ## The decoder, section by section -/

/-- The last section of `deserializePayload`: the three flags and the five
reserved bits. -/
def readFlags (self : Record) (buf : PSIBuffer) : Except BufferError (Record × PSIBuffer) := do
  let (ffr, buf) ← buf.getBool
  let self := { self with fixed_frame_rate := ffr }
  let (tpoc, buf) ← buf.getBool
  let self := { self with temporal_poc := tpoc }
  let (ptdc, buf) ← buf.getBool
  let self := { self with picture_to_display_conversion := ptdc }
  let (_, buf) ← buf.skipBits 5
  pure (self, buf)

/-- The statements of `deserializePayload` from the read of
`num_units_in_tick` on. -/
def readTicks (self : Record) (buf : PSIBuffer) : Except BufferError (Record × PSIBuffer) := do
  let (t, buf) ← buf.getUInt32
  readFlags { self with num_units_in_tick := some t } buf

/-- The statements of `deserializePayload` from the read of `N_90khz` on, in
the branch where `has_90kHz` holds. -/
def readClock (self : Record) (buf : PSIBuffer) : Except BufferError (Record × PSIBuffer) := do
  let (n, buf) ← buf.getUInt32
  let (k, buf) ← buf.getUInt32
  readTicks { self with N_90khz := some n, K_90khz := some k } buf

/-- The statements of `deserializePayload` from the read of `has_90kHz` on, in
the branch where `info_present` holds. -/
def readInfo (self : Record) (buf : PSIBuffer) : Except BufferError (Record × PSIBuffer) := do
  let (has_90kHz, buf) ← buf.getBool
  let (_, buf) ← buf.skipBits 7
  if has_90kHz then readClock self buf else readTicks self buf

/-- The method `deserializePayload` cut into its sections; proved equal to
`deserializePayload` in `deserializePayload_staged`. -/
def readHeader (self : Record) (buf : PSIBuffer) : Except BufferError (Record × PSIBuffer) := do
  let (hrd, buf) ← buf.getBool
  let self := { self with hrd_management_valid := hrd }
  let (_, buf) ← buf.skipBits 6
  let (info_present, buf) ← buf.getBool
  if info_present then readInfo self buf else readFlags self buf

/-! ## Byte-level view of the decoder -/

/-- Bit `k` of `x`, counted from the least significant bit. -/
def bit (x k : Nat) : Bool := decide (x / 2 ^ k % 2 = 1)

/-- The 32-bit big-endian unsigned integer held by four bytes. -/
def u32be (a b c d : Nat) : Nat :=
  a % 256 * 2 ^ 24 + b % 256 * 2 ^ 16 + c % 256 * 2 ^ 8 + d % 256

/-- Byte-level view of the last section of `deserializePayload`: the flags
byte. -/
def decodeFlags (r : Record) : List Nat → Except BufferError (Record × PSIBuffer)
  | [] => .error .underflow
  | f :: rest =>
    .ok ({ r with fixed_frame_rate := bit f 7, temporal_poc := bit f 6,
                  picture_to_display_conversion := bit f 5 }, PSIBuffer.ofBytes rest)

/-- Byte-level view of the tick count of `deserializePayload`: four bytes,
then the flags byte. -/
def decodeTicks (r : Record) : List Nat → Except BufferError (Record × PSIBuffer)
  | t0 :: t1 :: t2 :: t3 :: rest =>
    decodeFlags { r with num_units_in_tick := some (u32be t0 t1 t2 t3) } rest
  | _ => .error .underflow

/-- Byte-level view of the 90 kHz pair of `deserializePayload`: eight bytes,
then the tick count. -/
def decodeClock (r : Record) : List Nat → Except BufferError (Record × PSIBuffer)
  | n0 :: n1 :: n2 :: n3 :: k0 :: k1 :: k2 :: k3 :: rest =>
    decodeTicks { r with N_90khz := some (u32be n0 n1 n2 n3),
                         K_90khz := some (u32be k0 k1 k2 k3) } rest
  | _ => .error .underflow

/-- Byte-level view of the info section of `deserializePayload`: the byte that
carries `has_90kHz`, then the optional pair and the tick count. -/
def decodeInfo (r : Record) : List Nat → Except BufferError (Record × PSIBuffer)
  | [] => .error .underflow
  | b1 :: rest => if bit b1 7 then decodeClock r rest else decodeTicks r rest

/-- Byte-level view of `deserialize`, proved equal to it in
`deserialize_eq_decodeBytes`: the same reads, taken a whole byte at a time. -/
def decodeBytes : List Nat → Except BufferError (Record × PSIBuffer)
  | [] => .error .underflow
  | b0 :: rest =>
    if bit b0 0 then decodeInfo { Record.default with hrd_management_valid := bit b0 7 } rest
    else decodeFlags { Record.default with hrd_management_valid := bit b0 7 } rest

/-! ## Indexed view of the decoder -/

/-- The bit `info_present` of a payload: the lowest bit of its first byte. -/
def infoPresent (b : List Nat) : Bool := bit (b.getD 0 0) 0

/-- The bit `has_90kHz` of a payload: the highest bit of its second byte. -/
def has90kHz (b : List Nat) : Bool := bit (b.getD 1 0) 7

/-- The index of the flags byte, fixed by the two presence bits. -/
def flagsIndex (b : List Nat) : Nat :=
  if infoPresent b then (if has90kHz b then 14 else 6) else 1

/-- The record held by a payload, each field read at its byte index. -/
def recordAt (b : List Nat) : Record :=
  let fi := flagsIndex b
  { hrd_management_valid := bit (b.getD 0 0) 7
    N_90khz :=
      if infoPresent b && has90kHz b
      then some (u32be (b.getD 2 0) (b.getD 3 0) (b.getD 4 0) (b.getD 5 0)) else none
    K_90khz :=
      if infoPresent b && has90kHz b
      then some (u32be (b.getD 6 0) (b.getD 7 0) (b.getD 8 0) (b.getD 9 0)) else none
    num_units_in_tick :=
      if infoPresent b
      then some (u32be (b.getD (fi - 4) 0) (b.getD (fi - 3) 0) (b.getD (fi - 2) 0)
        (b.getD (fi - 1) 0))
      else none
    fixed_frame_rate := bit (b.getD fi 0) 7
    temporal_poc := bit (b.getD fi 0) 6
    picture_to_display_conversion := bit (b.getD fi 0) 5 }

/-- The mask of reserved bits of byte `i` of a payload: bits 1 to 6 of the
first byte, the low seven bits of the second byte when `info_present` is 1, the
low five bits of the flags byte, nothing elsewhere. -/
def reservedMask (b : List Nat) (i : Nat) : Nat :=
  if i = 0 then 0x7E
  else if infoPresent b = true ∧ i = 1 then 0x7F
  else if i = flagsIndex b then 0x1F
  else 0

/-- Two payloads of equal length that differ only in reserved bit positions:
byte by byte they agree once the reserved bits are forced to 1. -/
def differOnlyInReserved (b1 b2 : List Nat) : Prop :=
  b1.length = b2.length ∧
    ∀ i, i < b1.length → b1.getD i 0 ||| reservedMask b1 i = b2.getD i 0 ||| reservedMask b1 i

/-- Every element of a byte sequence is a `uint8_t`. -/
def isBytes (b : List Nat) : Prop := ∀ x ∈ b, x < 256

/-- A payload with every reserved bit set to 1: first byte OR `0x7E`, second
byte OR `0x7F` when `info_present` is 1, flags byte OR `0x1F`. -/
def setReserved (b : List Nat) : List Nat :=
  (List.range b.length).map (fun i => b.getD i 0 ||| reservedMask b i)

/-- All reserved bits of a payload are 1. -/
def reservedAllOnes (b : List Nat) : Prop :=
  ∀ i, i < b.length → b.getD i 0 &&& reservedMask b i = reservedMask b i

/-! ## The display routine -/

/-- One line written by `DisplayDescriptor`, with the value it shows. The
constructors stand for the labels `HRD management valid`, `90 kHz: N, K`,
`Num. units in tick`, `Fixed frame rate`, `Temporal picture order count` and
`Picture to display conversion`. -/
inductive Line where
  | hrdManagementValid (v : Bool)
  | clock90kHz (n k : Nat)
  | numUnitsInTick (v : Nat)
  | fixedFrameRate (v : Bool)
  | temporalPoc (v : Bool)
  | pictureToDisplayConversion (v : Bool)
deriving DecidableEq, Repr

/-- A memory operation of `DisplayDescriptor`, kept as a ghost record:
`read offset count` dereferences `count` bytes starting `offset` bytes after
the start of the span, and `shrink size amount` is the statement
`size -= amount` executed while the counter holds `size`. -/
inductive Access where
  | read (offset count : Nat)
  | shrink (size amount : Nat)
deriving DecidableEq, Repr

/-- An access stays inside a span of `len` bytes: a read ends at or before the
end of the span, and a decrement does not exceed the counter. -/
def Access.safe (len : Nat) : Access → Bool
  | .read offset count => decide (offset + count ≤ len)
  | .shrink size amount => decide (amount ≤ size)

/-- The state threaded through `DisplayDescriptor`: the lines written so far,
the ghost record of accesses, the pointer `data` as an offset from the start
of the span, and the counter `size`. -/
structure DisplayState where
  lines : List Line
  accesses : List Access
  data : Nat
  size : Nat
deriving DecidableEq, Repr

/-- Subtraction on `size_t`: the result wraps modulo `2 ^ 64`. -/
def subSizeT (size amount : Nat) : Nat :=
  (size + (2 ^ 64 - amount % 2 ^ 64)) % 2 ^ 64

/-- The statements `data += n; size -= n`. -/
def DisplayState.advance (st : DisplayState) (n : Nat) : DisplayState :=
  { st with accesses := st.accesses ++ [Access.shrink st.size n],
            data := st.data + n, size := subSizeT st.size n }

/-- A dereference of `count` bytes at `data + offset`, noted in the ghost
record. -/
def DisplayState.deref (st : DisplayState) (offset count : Nat) : DisplayState :=
  { st with accesses := st.accesses ++ [Access.read (st.data + offset) count] }

/-- Writing lines to the display. -/
def DisplayState.print (st : DisplayState) (ls : List Line) : DisplayState :=
  { st with lines := st.lines ++ ls }

/-- Modelled from the spec: `GetUInt32`, the 32-bit big-endian unsigned integer
held by four consecutive bytes of memory; the helper is not in the source
file. Each byte is a `uint8_t`. -/
def GetUInt32 (mem : Nat → Nat) (p : Nat) : Nat :=
  mem p % 256 * 2 ^ 24 + mem (p + 1) % 256 * 2 ^ 16 + mem (p + 2) % 256 * 2 ^ 8 +
    mem (p + 3) % 256

/-- The static method `DisplayDescriptor`. The argument `mem` is the memory
addressed from the pointer `data` (of which only the first `size` bytes belong
to the descriptor payload), and the result is the state in which
`displayExtraData (data, size)` is called. -/
def DisplayDescriptor (mem : Nat → Nat) (size : Nat) : DisplayState :=
  let st : DisplayState := { lines := [], accesses := [], data := 0, size := size }
  if st.size ≥ 1 then
    let st := (st.deref 0 1).print [Line.hrdManagementValid ((mem st.data &&& 0x80) != 0)]
    let info_present := (mem st.data &&& 0x01) != 0
    let st := st.advance 1
    let ok := decide (st.size ≥ 1)
    let (st, ok) :=
      if info_present then
        let has_90kHz := (mem st.data &&& 0x80) != 0
        let st := (st.deref 0 1).advance 1
        let (st, ok) :=
          if has_90kHz then
            let ok := decide (st.size ≥ 8)
            if ok then
              let st := ((st.deref 0 4).deref 4 4).print
                [Line.clock90kHz (GetUInt32 mem st.data) (GetUInt32 mem (st.data + 4))]
              (st.advance 8, ok)
            else (st, ok)
          else (st, ok)
        let ok := ok && decide (st.size ≥ 4)
        if ok then
          let st := (st.deref 0 4).print [Line.numUnitsInTick (GetUInt32 mem st.data)]
          (st.advance 4, ok)
        else (st, ok)
      else (st, ok)
    if ok && decide (st.size ≥ 1) then
      let st := (st.deref 0 1).print
        [Line.fixedFrameRate ((mem st.data &&& 0x80) != 0),
         Line.temporalPoc ((mem st.data &&& 0x40) != 0),
         Line.pictureToDisplayConversion ((mem st.data &&& 0x20) != 0)]
      st.advance 1
    else st
  else st

/-- The invariant of the display routine on a span of `n` bytes: pointer and
counter add up to `n`, and every access made so far is inside the span. -/
def DisplayInv (n : Nat) (st : DisplayState) : Prop :=
  st.data + st.size = n ∧ ∀ a ∈ st.accesses, Access.safe n a = true

/-- The memory seen by `DisplayDescriptor` for a byte span `b`: the bytes of
`b`, followed by whatever the surrounding memory `beyond` holds. -/
def memOf (b : List Nat) (beyond : Nat → Nat) : Nat → Nat :=
  fun i => if i < b.length then b.getD i 0 else beyond i

/-- The display of a byte span, as the specification names it. -/
def render (b : List Nat) (beyond : Nat → Nat) : DisplayState :=
  DisplayDescriptor (memOf b beyond) b.length

/-- The lines the specification expects for a decoded record: one line per
field present, in layout order. -/
def linesOf (r : Record) : List Line :=
  [Line.hrdManagementValid r.hrd_management_valid] ++
  (match r.N_90khz, r.K_90khz with
    | some n, some k => [Line.clock90kHz n k]
    | _, _ => []) ++
  (match r.num_units_in_tick with
    | some t => [Line.numUnitsInTick t]
    | none => []) ++
  [Line.fixedFrameRate r.fixed_frame_rate, Line.temporalPoc r.temporal_poc,
   Line.pictureToDisplayConversion r.picture_to_display_conversion]

/-! ## The attribute tree -/

/-- Modelled from the spec: the value carried by an attribute of a tree node;
the tree library is not in the source file. A value is a boolean, an unsigned
integer of any size, or text that is neither. -/
inductive AttrValue where
  | bool (b : Bool)
  | int (n : Nat)
  | text (s : String)
deriving DecidableEq, Repr

/-- Modelled from the spec: the conditions under which reading an attribute
fails. -/
inductive XmlError where
  | missingAttribute
  | malformedValue
deriving DecidableEq, Repr

/-- Modelled from the spec: a tree node `xml::Element`, reduced to its named
attributes; the class is not in the source file. -/
structure Element where
  attributes : List (String × AttrValue)
deriving DecidableEq, Repr

namespace Element

/-- The value recorded for `name` in a list of attributes, if any. -/
def find (name : String) : List (String × AttrValue) → Option AttrValue
  | [] => none
  | (k, v) :: rest => if k = name then some v else find name rest

/-- Recording `v` for `name` in a list of attributes: the value of an existing
attribute is replaced, a new attribute is added at the end. -/
def put (name : String) (v : AttrValue) : List (String × AttrValue) → List (String × AttrValue)
  | [] => [(name, v)]
  | (k, w) :: rest => if k = name then (k, v) :: rest else (k, w) :: put name v rest

/-- Modelled from the spec: the attribute `name` of a node, when present. -/
def getAttribute (e : Element) (name : String) : Option AttrValue :=
  find name e.attributes

/-- Modelled from the spec: setting the attribute `name` of a node. -/
def setAttribute (e : Element) (name : String) (v : AttrValue) : Element :=
  ⟨put name v e.attributes⟩

/-- Modelled from the spec: `setBoolAttribute`, always writing the attribute. -/
def setBoolAttribute (e : Element) (name : String) (value : Bool) : Element :=
  e.setAttribute name (.bool value)

/-- Modelled from the spec: `setOptionalIntAttribute`, writing the attribute
when the value is set and leaving the node as it is otherwise. -/
def setOptionalIntAttribute (e : Element) (name : String) (value : Option Nat) : Element :=
  match value with
  | some n => e.setAttribute name (.int n)
  | none => e

/-- Modelled from the spec: `getBoolAttribute`. An absent attribute is an error
when `required`, and yields `defValue` otherwise; a present attribute must hold
a boolean. -/
def getBoolAttribute (e : Element) (name : String) (required : Bool) (defValue : Bool) :
    Except XmlError Bool :=
  match e.getAttribute name with
  | none => if required then .error .missingAttribute else .ok defValue
  | some (.bool b) => .ok b
  | some _ => .error .malformedValue

/-- Modelled from the spec: `getOptionalIntAttribute` at type `uint32_t`. An
absent attribute yields an unset value; a present attribute must hold an
unsigned integer in the 32-bit range. -/
def getOptionalIntAttribute (e : Element) (name : String) : Except XmlError (Option Nat) :=
  match e.getAttribute name with
  | none => .ok none
  | some (.int n) => if n < 2 ^ 32 then .ok (some n) else .error .malformedValue
  | some _ => .error .malformedValue

end Element

/-- The method `buildXML`. -/
def buildXML (self : Record) (root : Element) : Element :=
  let root := root.setBoolAttribute "hrd_management_valid" self.hrd_management_valid
  let root := root.setOptionalIntAttribute "N_90khz" self.N_90khz
  let root := root.setOptionalIntAttribute "K_90khz" self.K_90khz
  let root := root.setOptionalIntAttribute "num_units_in_tick" self.num_units_in_tick
  let root := root.setBoolAttribute "fixed_frame_rate" self.fixed_frame_rate
  let root := root.setBoolAttribute "temporal_poc" self.temporal_poc
  root.setBoolAttribute "picture_to_display_conversion" self.picture_to_display_conversion

/-- The method `analyzeXML`: the reads are chained by `&&`, so the first one
that fails ends the analysis. The source relies on the default `false` for the
last argument of `getBoolAttribute`. -/
def analyzeXML (self : Record) (element : Element) : Except XmlError Record := do
  let hrd ← element.getBoolAttribute "hrd_management_valid" true false
  let self := { self with hrd_management_valid := hrd }
  let n ← element.getOptionalIntAttribute "N_90khz"
  let self := { self with N_90khz := n }
  let k ← element.getOptionalIntAttribute "K_90khz"
  let self := { self with K_90khz := k }
  let t ← element.getOptionalIntAttribute "num_units_in_tick"
  let self := { self with num_units_in_tick := t }
  let ffr ← element.getBoolAttribute "fixed_frame_rate" true false
  let self := { self with fixed_frame_rate := ffr }
  let tpoc ← element.getBoolAttribute "temporal_poc" true false
  let self := { self with temporal_poc := tpoc }
  let ptdc ← element.getBoolAttribute "picture_to_display_conversion" true false
  pure { self with picture_to_display_conversion := ptdc }

/-- Modelled from the spec: `toText`, the attributes written on a fresh node;
the wrapper of the descriptor base class is not in the source file. -/
def toText (r : Record) : Element := buildXML r ⟨[]⟩

/-- Modelled from the spec: `fromText`, reading a node into a freshly cleared
record; the wrapper of the descriptor base class is not in the source file. -/
def fromText (tree : Element) : Except XmlError Record :=
  analyzeXML (clearContent Record.default) tree

/-- The four boolean attributes, all required. -/
def boolAttributes : List String :=
  ["hrd_management_valid", "fixed_frame_rate", "temporal_poc", "picture_to_display_conversion"]

/-- The three optional integer attributes. -/
def intAttributes : List String := ["N_90khz", "K_90khz", "num_units_in_tick"]

/-- The attribute a record shows under `name`, field by field. -/
def attrOf (r : Record) (name : String) : Option AttrValue :=
  if name = "hrd_management_valid" then some (.bool r.hrd_management_valid)
  else if name = "N_90khz" then r.N_90khz.map AttrValue.int
  else if name = "K_90khz" then r.K_90khz.map AttrValue.int
  else if name = "num_units_in_tick" then r.num_units_in_tick.map AttrValue.int
  else if name = "fixed_frame_rate" then some (.bool r.fixed_frame_rate)
  else if name = "temporal_poc" then some (.bool r.temporal_poc)
  else if name = "picture_to_display_conversion" then
    some (.bool r.picture_to_display_conversion)
  else none

/-- The attribute `name` of a node holds the optional 32-bit value `v`: it is
absent when `v` is unset, and holds the integer of `v`, below `2 ^ 32`,
otherwise. -/
def holdsInt (e : Element) (name : String) (v : Option Nat) : Prop :=
  match v with
  | none => e.getAttribute name = none
  | some n => e.getAttribute name = some (.int n) ∧ n < 2 ^ 32

/-- The reads of `analyzeXML` all succeed, with the fields of `r` as results. -/
def readsAs (tree : Element) (r : Record) : Prop :=
  tree.getAttribute "hrd_management_valid" = some (.bool r.hrd_management_valid) ∧
  holdsInt tree "N_90khz" r.N_90khz ∧
  holdsInt tree "K_90khz" r.K_90khz ∧
  holdsInt tree "num_units_in_tick" r.num_units_in_tick ∧
  tree.getAttribute "fixed_frame_rate" = some (.bool r.fixed_frame_rate) ∧
  tree.getAttribute "temporal_poc" = some (.bool r.temporal_poc) ∧
  tree.getAttribute "picture_to_display_conversion" =
    some (.bool r.picture_to_display_conversion)

/-- Every present attribute of a node holds a well-formed value: a boolean
under the four boolean names, an unsigned integer in the 32-bit range under the
three integer names. -/
def wellTyped (tree : Element) : Prop :=
  (∀ name ∈ boolAttributes, ∀ v, tree.getAttribute name = some v → ∃ b, v = .bool b) ∧
  (∀ name ∈ intAttributes, ∀ v, tree.getAttribute name = some v →
    ∃ n, v = .int n ∧ n < 2 ^ 32)

/-! ## Sample records and trees -/

/-- A record with every optional field set. -/
def sampleFull : Record :=
  { hrd_management_valid := true, N_90khz := some 90000, K_90khz := some 1,
    num_units_in_tick := some 1001, fixed_frame_rate := true, temporal_poc := false,
    picture_to_display_conversion := true }

/-- A record with the 90 kHz pair set and no tick count. -/
def sampleOrphanClock : Record :=
  { hrd_management_valid := true, N_90khz := some 90000, K_90khz := some 1,
    num_units_in_tick := none, fixed_frame_rate := false, temporal_poc := true,
    picture_to_display_conversion := false }

/-- A node with three of the four boolean attributes and nothing else. -/
def treeThreeBooleans : Element :=
  ⟨[("hrd_management_valid", .bool true), ("fixed_frame_rate", .bool false),
    ("temporal_poc", .bool true)]⟩

/-- A node with the four boolean attributes and nothing else. -/
def treeFourBooleans : Element :=
  ⟨[("hrd_management_valid", .bool true), ("fixed_frame_rate", .bool false),
    ("temporal_poc", .bool true), ("picture_to_display_conversion", .bool false)]⟩

/-- A node with its attributes in another order than `toText` writes them,
with one optional attribute. -/
def treeShuffled : Element :=
  ⟨[("num_units_in_tick", .int 1001), ("temporal_poc", .bool true),
    ("hrd_management_valid", .bool true), ("picture_to_display_conversion", .bool false),
    ("fixed_frame_rate", .bool false)]⟩

/-- The record read from `treeShuffled`. -/
def recordShuffled : Record :=
  { hrd_management_valid := true, N_90khz := none, K_90khz := none,
    num_units_in_tick := some 1001, fixed_frame_rate := false, temporal_poc := true,
    picture_to_display_conversion := false }

/-! ## Bit-level lemmas -/

@[simp] theorem bitsMSB_length (v n : Nat) : (bitsMSB v n).length = n := by
  induction n with
  | zero => rfl
  | succ n ih => simp [bitsMSB, ih]

theorem natOfBits_foldl (bs : List Bool) (a : Nat) :
    bs.foldl (fun acc b => 2 * acc + b.toNat) a = a * 2 ^ bs.length + natOfBits bs := by
  induction bs generalizing a with
  | nil => simp [natOfBits]
  | cons b bs ih =>
    simp only [List.foldl_cons, List.length_cons, natOfBits]
    rw [ih (2 * a + b.toNat), ih (2 * 0 + b.toNat)]
    ring

theorem natOfBits_cons (b : Bool) (bs : List Bool) :
    natOfBits (b :: bs) = b.toNat * 2 ^ bs.length + natOfBits bs := by
  simp only [natOfBits, List.foldl_cons]
  rw [natOfBits_foldl]
  simp [natOfBits]

theorem natOfBits_lt (bs : List Bool) : natOfBits bs < 2 ^ bs.length := by
  induction bs with
  | nil => simp [natOfBits]
  | cons b bs ih =>
    rw [natOfBits_cons, List.length_cons, pow_succ]
    cases b <;> simp <;> omega

theorem natOfBits_bitsMSB (v n : Nat) : natOfBits (bitsMSB v n) = v % 2 ^ n := by
  induction n with
  | zero => simp [bitsMSB, natOfBits, Nat.mod_one]
  | succ n ih =>
    rw [bitsMSB, natOfBits_cons, ih, bitsMSB_length]
    have h1 : v % 2 ^ (n + 1) = 2 ^ n * (v / 2 ^ n % 2) + v % 2 ^ n := by
      rw [pow_succ, Nat.mod_mul, Nat.add_comm]
    rw [h1]
    rcases Nat.mod_two_eq_zero_or_one (v / 2 ^ n) with h | h <;> simp [h]

theorem bitsMSB_natOfBits (bs : List Bool) : bitsMSB (natOfBits bs) bs.length = bs := by
  induction bs with
  | nil => rfl
  | cons b bs ih =>
    have hlt := natOfBits_lt bs
    have hpos : 0 < 2 ^ bs.length := Nat.two_pow_pos _
    have hdiv : natOfBits (b :: bs) / 2 ^ bs.length = b.toNat := by
      rw [natOfBits_cons, Nat.add_comm, Nat.add_mul_div_right _ _ hpos,
        Nat.div_eq_of_lt hlt, Nat.zero_add]
    have hbits : ∀ (x y m : Nat), x % 2 ^ m = y % 2 ^ m → bitsMSB x m = bitsMSB y m := by
      intro x y m
      induction m with
      | zero => intro _; rfl
      | succ m ihm =>
        intro h
        have hm : x % 2 ^ m = y % 2 ^ m := by
          have hx := Nat.mod_mod_of_dvd x (pow_dvd_pow 2 (Nat.le_succ m))
          have hy := Nat.mod_mod_of_dvd y (pow_dvd_pow 2 (Nat.le_succ m))
          rw [← hx, ← hy, h]
        have hd : x / 2 ^ m % 2 = y / 2 ^ m % 2 := by
          have hx : x % 2 ^ (m + 1) = 2 ^ m * (x / 2 ^ m % 2) + x % 2 ^ m := by
            rw [pow_succ, Nat.mod_mul, Nat.add_comm]
          have hy : y % 2 ^ (m + 1) = 2 ^ m * (y / 2 ^ m % 2) + y % 2 ^ m := by
            rw [pow_succ, Nat.mod_mul, Nat.add_comm]
          rw [hx, hy, hm] at h
          have hp : 0 < 2 ^ m := Nat.two_pow_pos _
          exact Nat.eq_of_mul_eq_mul_left hp (Nat.add_right_cancel h)
        simp only [bitsMSB, hd, ihm hm]
    have htail : bitsMSB (natOfBits (b :: bs)) bs.length = bs := by
      rw [hbits (natOfBits (b :: bs)) (natOfBits bs) bs.length ?_, ih]
      rw [natOfBits_cons, Nat.add_comm, Nat.add_mul_mod_self_right]
    simp only [List.length_cons, bitsMSB, hdiv, htail]
    cases b <;> simp

theorem unpackBytes_append (xs ys : List Nat) :
    PSIBuffer.unpackBytes (xs ++ ys) = PSIBuffer.unpackBytes xs ++ PSIBuffer.unpackBytes ys := by
  induction xs with
  | nil => rfl
  | cons x xs ih => simp [PSIBuffer.unpackBytes, ih]

@[simp] theorem unpackBytes_length (xs : List Nat) :
    (PSIBuffer.unpackBytes xs).length = 8 * xs.length := by
  induction xs with
  | nil => rfl
  | cons x xs ih => simp [PSIBuffer.unpackBytes, ih]; omega

theorem unpack_pack (bs : List Bool) (h : bs.length % 8 = 0) :
    PSIBuffer.unpackBytes (PSIBuffer.packBytes bs) = bs := by
  induction bs using PSIBuffer.packBytes.induct with
  | case1 b7 b6 b5 b4 b3 b2 b1 b0 rest ih =>
    have hr : rest.length % 8 = 0 := by simp at h; omega
    rw [PSIBuffer.packBytes, PSIBuffer.unpackBytes, ih hr]
    have := bitsMSB_natOfBits [b7, b6, b5, b4, b3, b2, b1, b0]
    simp only [List.length_cons, List.length_nil] at this
    rw [this]
    rfl
  | case2 => rfl
  | case3 b rest hne =>
    exfalso
    simp at h
    have hlt : rest.length < 7 := by
      by_contra hge
      rcases rest with _ | ⟨b6, _ | ⟨b5, _ | ⟨b4, _ | ⟨b3, _ | ⟨b2, _ | ⟨b1, _ | ⟨b0, r⟩⟩⟩⟩⟩⟩⟩ <;>
        simp at hge
      exact hne _ _ _ _ _ _ _ _ rfl
    omega

theorem pack_length (bs : List Bool) (h : bs.length % 8 = 0) :
    8 * (PSIBuffer.packBytes bs).length = bs.length := by
  have := congrArg List.length (unpack_pack bs h)
  simpa using this

/-! ## Reader lemmas -/

@[simp] theorem getBool_cons (b : Bool) (l : List Bool) :
    PSIBuffer.getBool ⟨b :: l⟩ = .ok (b, ⟨l⟩) := rfl

@[simp] theorem getBool_nil : PSIBuffer.getBool ⟨[]⟩ = .error .underflow := rfl

theorem skipBits_bitsMSB (v n : Nat) (l : List Bool) :
    PSIBuffer.skipBits ⟨bitsMSB v n ++ l⟩ n = .ok ((), ⟨l⟩) := by
  simp [PSIBuffer.skipBits, List.drop_append_eq_append_drop]

theorem getUInt32_bitsMSB (v : Nat) (l : List Bool) :
    PSIBuffer.getUInt32 ⟨bitsMSB v 32 ++ l⟩ = .ok (v % 2 ^ 32, ⟨l⟩) := by
  simp [PSIBuffer.getUInt32, List.take_append_eq_append_take,
    List.drop_append_eq_append_drop, natOfBits_bitsMSB]

/-! ## Shape of the serialized payload -/

theorem serializePayload_bits (r : Record) (pre : List Bool) :
    (serializePayload r ⟨pre⟩).bits = pre ++ payloadBits r := by
  simp only [serializePayload, payloadBits, PSIBuffer.putBit, PSIBuffer.putBits,
    PSIBuffer.putUInt32]
  split_ifs <;> simp

theorem payloadBits_length (r : Record) :
    (payloadBits r).length =
      if r.num_units_in_tick.isSome then
        (if r.N_90khz.isSome && r.K_90khz.isSome then 120 else 56)
      else 16 := by
  simp only [payloadBits]
  split_ifs <;> simp

theorem payloadBits_length_mod (r : Record) : (payloadBits r).length % 8 = 0 := by
  rw [payloadBits_length]
  split_ifs <;> rfl

theorem serialize_eq (r : Record) : serialize r = PSIBuffer.packBytes (payloadBits r) := by
  simp [serialize, PSIBuffer.toBytes, PSIBuffer.empty, serializePayload_bits]

theorem unpack_serialize (r : Record) : PSIBuffer.unpackBytes (serialize r) = payloadBits r := by
  rw [serialize_eq, unpack_pack _ (payloadBits_length_mod r)]

/-- Decoding the bits of a serialized payload, whatever follows them, yields
the normalized record and leaves exactly what follows. -/
theorem deserializePayload_payloadBits (r r0 : Record) (s : List Bool) :
    deserializePayload (clearContent r0) ⟨payloadBits r ++ s⟩ = .ok (r.normalize, ⟨s⟩) := by
  obtain ⟨hrd, N, K, T, ffr, tpoc, ptdc⟩ := r
  cases T <;> cases N <;> cases K <;>
    simp [deserializePayload, payloadBits, clearContent, Record.normalize, skipBits_bitsMSB,
      getUInt32_bitsMSB, bind, Except.bind, pure, Except.pure]

theorem deserialize_serialize (r : Record) :
    deserialize (serialize r) = .ok (r.normalize, ⟨[]⟩) := by
  have h := deserializePayload_payloadBits r Record.default []
  rw [List.append_nil] at h
  rw [deserialize, PSIBuffer.ofBytes, unpack_serialize, h]

theorem normalize_of_coupled (r : Record) (hc : r.coupled) (hr : r.isUInt32) :
    r.normalize = r := by
  obtain ⟨hrd, N, K, T, ffr, tpoc, ptdc⟩ := r
  obtain ⟨hN, hK, hT⟩ := hr
  obtain ⟨h1, h2⟩ := hc
  cases T <;> cases N <;> cases K <;>
    simp_all [Record.normalize, Nat.mod_eq_of_lt]

/-! ## Byte-level lemmas -/

theorem bitsMSB_add (v m n : Nat) :
    bitsMSB v (m + n) = bitsMSB (v / 2 ^ n) m ++ bitsMSB v n := by
  induction m with
  | zero => simp [bitsMSB]
  | succ m ih =>
    have e : m + 1 + n = (m + n) + 1 := by omega
    rw [e, bitsMSB, bitsMSB, ih, Nat.div_div_eq_div_mul, ← pow_add, Nat.add_comm n m]
    rfl

theorem packBytes_bitsMSB_8 (x : Nat) (rest : List Bool) :
    PSIBuffer.packBytes (bitsMSB x 8 ++ rest) = x % 256 :: PSIBuffer.packBytes rest := by
  have h := natOfBits_bitsMSB x 8
  simp only [bitsMSB, List.cons_append, List.nil_append, PSIBuffer.packBytes] at h ⊢
  rw [h]
  rfl

theorem packBytes_bitsMSB_32 (v : Nat) (rest : List Bool) :
    PSIBuffer.packBytes (bitsMSB (v % 2 ^ 32) 32 ++ rest) = be32 v ++ PSIBuffer.packBytes rest := by
  have e : bitsMSB (v % 2 ^ 32) 32 =
      bitsMSB (v % 2 ^ 32 / 2 ^ 24) 8 ++ (bitsMSB (v % 2 ^ 32 / 2 ^ 16) 8 ++
        (bitsMSB (v % 2 ^ 32 / 2 ^ 8) 8 ++ bitsMSB (v % 2 ^ 32) 8)) := by
    have a := bitsMSB_add (v % 2 ^ 32) 8 24
    have b := bitsMSB_add (v % 2 ^ 32) 8 16
    have c := bitsMSB_add (v % 2 ^ 32) 8 8
    simp only [Nat.reduceAdd] at a b c
    rw [a, b, c]
  rw [e]
  simp only [List.append_assoc, packBytes_bitsMSB_8, be32, List.cons_append, List.nil_append]
  norm_num
  refine ⟨?_, ?_, ?_⟩ <;> omega

theorem packBytes_head (hrd info : Bool) (rest : List Bool) :
    PSIBuffer.packBytes (hrd :: (bitsMSB 0xFF 6 ++ info :: rest)) =
      ((hrd.toNat <<< 7) ||| 0x7E ||| info.toNat) :: PSIBuffer.packBytes rest := by
  cases hrd <;> cases info <;> rfl

theorem packBytes_info (has : Bool) (rest : List Bool) :
    PSIBuffer.packBytes (has :: (bitsMSB 0xFF 7 ++ rest)) =
      ((has.toNat <<< 7) ||| 0x7F) :: PSIBuffer.packBytes rest := by
  cases has <;> rfl

theorem packBytes_flags (a b c : Bool) :
    PSIBuffer.packBytes (a :: b :: c :: bitsMSB 0xFF 5) =
      [(a.toNat <<< 7) ||| (b.toNat <<< 6) ||| (c.toNat <<< 5) ||| 0x1F] := by
  cases a <;> cases b <;> cases c <;> rfl

theorem headByte_reserved (a b : Bool) :
    ((a.toNat <<< 7) ||| 0x7E ||| b.toNat) &&& 0x7E = 0x7E := by
  cases a <;> cases b <;> decide

theorem infoByte_reserved (a : Bool) : ((a.toNat <<< 7) ||| 0x7F) &&& 0x7F = 0x7F := by
  cases a <;> decide

theorem flagsByte_reserved (a b c : Bool) :
    ((a.toNat <<< 7) ||| (b.toNat <<< 6) ||| (c.toNat <<< 5) ||| 0x1F) &&& 0x1F = 0x1F := by
  cases a <;> cases b <;> cases c <;> decide

theorem serialize_eq_serializeRef (r : Record) : serialize r = serializeRef r := by
  obtain ⟨hrd, N, K, T, ffr, tpoc, ptdc⟩ := r
  rw [serialize_eq]
  cases T <;> cases N <;> cases K <;>
    simp only [payloadBits, serializeRef, headerByte, infoBytes, flagsByte, Option.isSome_none, Option.isSome_some,
      Bool.and_true, Bool.and_false, Bool.false_and, Bool.and_self, if_true, if_false,
      Bool.false_eq_true, List.cons_append, List.nil_append, List.append_nil,
      Option.getD_some, Option.getD_none, List.append_assoc, packBytes_head, packBytes_info,
      packBytes_flags, packBytes_bitsMSB_32]

theorem serialize_length (r : Record) :
    (serialize r).length =
      if r.num_units_in_tick.isSome then
        (if r.N_90khz.isSome && r.K_90khz.isSome then 15 else 7)
      else 2 := by
  have h := pack_length (payloadBits r) (payloadBits_length_mod r)
  rw [← serialize_eq, payloadBits_length] at h
  split_ifs at h ⊢ <;> omega

/-! ## The decoder, byte by byte -/

theorem natOfBits_append (xs ys : List Bool) :
    natOfBits (xs ++ ys) = natOfBits xs * 2 ^ ys.length + natOfBits ys := by
  induction xs with
  | nil => simp [natOfBits]
  | cons b xs ih =>
    rw [List.cons_append, natOfBits_cons, natOfBits_cons, ih, List.length_append, pow_add]
    ring

theorem getUInt32_bytes (a b c d : Nat) (l : List Bool) :
    PSIBuffer.getUInt32 ⟨bitsMSB a 8 ++ (bitsMSB b 8 ++ (bitsMSB c 8 ++ (bitsMSB d 8 ++ l)))⟩ =
      .ok (u32be a b c d, ⟨l⟩) := by
  have e : bitsMSB a 8 ++ (bitsMSB b 8 ++ (bitsMSB c 8 ++ (bitsMSB d 8 ++ l))) =
      (bitsMSB a 8 ++ (bitsMSB b 8 ++ (bitsMSB c 8 ++ bitsMSB d 8))) ++ l := by
    simp
  have hlen : (bitsMSB a 8 ++ (bitsMSB b 8 ++ (bitsMSB c 8 ++ bitsMSB d 8))).length = 32 := by
    simp
  rw [e, PSIBuffer.getUInt32]
  simp only [List.length_append, hlen, Nat.le_add_right, if_true]
  rw [List.take_left' hlen, List.drop_left' hlen]
  simp only [natOfBits_append, natOfBits_bitsMSB, bitsMSB_length, List.length_append, u32be]
  simp only [Nat.reduceAdd, Nat.reducePow, Nat.add_assoc]

theorem getUInt32_short (l : List Bool) (h : l.length < 32) :
    PSIBuffer.getUInt32 ⟨l⟩ = .error .underflow := by
  simp [PSIBuffer.getUInt32]; omega

theorem headBits (x : Nat) :
    bitsMSB x 8 = bit x 7 :: (bitsMSB (x / 2 ^ 1) 6 ++ [bit x 0]) := by
  have h := bitsMSB_add x 6 1
  simp only [Nat.reduceAdd] at h
  rw [bitsMSB, h]
  rfl

theorem infoBits (x : Nat) : bitsMSB x 8 = bit x 7 :: bitsMSB x 7 := rfl

theorem flagBits (x : Nat) : bitsMSB x 8 = bit x 7 :: bit x 6 :: bit x 5 :: bitsMSB x 5 := rfl

theorem deserializePayload_staged (self : Record) (buf : PSIBuffer) :
    deserializePayload self buf = readHeader self buf := by
  simp only [deserializePayload, readHeader, readInfo, readClock, readTicks, readFlags,
    bind_assoc, pure_bind]

theorem readFlags_bytes (r : Record) (data : List Nat) :
    readFlags r ⟨PSIBuffer.unpackBytes data⟩ = decodeFlags r data := by
  cases data with
  | nil => rfl
  | cons f rest =>
    rw [PSIBuffer.unpackBytes, flagBits f]
    simp only [readFlags, List.cons_append, getBool_cons, skipBits_bitsMSB, decodeFlags,
      PSIBuffer.ofBytes, bind, Except.bind, pure, Except.pure]

theorem readTicks_bytes (r : Record) (data : List Nat) :
    readTicks r ⟨PSIBuffer.unpackBytes data⟩ = decodeTicks r data := by
  rcases data with _ | ⟨t0, _ | ⟨t1, _ | ⟨t2, _ | ⟨t3, rest⟩⟩⟩⟩
  · rw [readTicks, getUInt32_short _ (by simp [PSIBuffer.unpackBytes])]; rfl
  · rw [readTicks, getUInt32_short _ (by simp [PSIBuffer.unpackBytes])]; rfl
  · rw [readTicks, getUInt32_short _ (by simp [PSIBuffer.unpackBytes])]; rfl
  · rw [readTicks, getUInt32_short _ (by simp [PSIBuffer.unpackBytes])]; rfl
  · simp only [readTicks, PSIBuffer.unpackBytes, getUInt32_bytes, bind, Except.bind]
    rw [readFlags_bytes]
    rfl

theorem readClock_short (r : Record) (data : List Nat) (h : data.length < 8) :
    readClock r ⟨PSIBuffer.unpackBytes data⟩ = .error .underflow := by
  rcases data with _ | ⟨n0, _ | ⟨n1, _ | ⟨n2, _ | ⟨n3, rest⟩⟩⟩⟩
  · rw [readClock, getUInt32_short _ (by simp [PSIBuffer.unpackBytes])]; rfl
  · rw [readClock, getUInt32_short _ (by simp [PSIBuffer.unpackBytes])]; rfl
  · rw [readClock, getUInt32_short _ (by simp [PSIBuffer.unpackBytes])]; rfl
  · rw [readClock, getUInt32_short _ (by simp [PSIBuffer.unpackBytes])]; rfl
  · have hr : (PSIBuffer.unpackBytes rest).length < 32 := by
      simp only [List.length_cons] at h
      rw [unpackBytes_length]; omega
    simp only [readClock, PSIBuffer.unpackBytes, getUInt32_bytes, bind, Except.bind]
    rw [getUInt32_short _ hr]

theorem decodeClock_short (r : Record) (data : List Nat) (h : data.length < 8) :
    decodeClock r data = .error .underflow := by
  rcases data with _ | ⟨n0, _ | ⟨n1, _ | ⟨n2, _ | ⟨n3, _ | ⟨k0, _ | ⟨k1, _ | ⟨k2, _ | ⟨k3, rest⟩⟩⟩⟩⟩⟩⟩⟩
  all_goals first
    | rfl
    | (simp only [List.length_cons] at h; omega)

theorem readClock_bytes (r : Record) (data : List Nat) :
    readClock r ⟨PSIBuffer.unpackBytes data⟩ = decodeClock r data := by
  by_cases h : data.length < 8
  · rw [readClock_short r data h, decodeClock_short r data h]
  · rcases data with _ | ⟨n0, _ | ⟨n1, _ | ⟨n2, _ | ⟨n3, _ | ⟨k0, _ | ⟨k1, _ | ⟨k2, _ | ⟨k3, rest⟩⟩⟩⟩⟩⟩⟩⟩
    all_goals first
      | (exfalso; apply h; simp only [List.length_cons, List.length_nil]; omega)
      | skip
    simp only [readClock, PSIBuffer.unpackBytes, List.append_assoc, getUInt32_bytes, bind,
      Except.bind]
    rw [readTicks_bytes]
    rfl

theorem readInfo_bytes (r : Record) (data : List Nat) :
    readInfo r ⟨PSIBuffer.unpackBytes data⟩ = decodeInfo r data := by
  cases data with
  | nil => rfl
  | cons b1 rest =>
    rw [PSIBuffer.unpackBytes, infoBits b1]
    simp only [readInfo, List.cons_append, getBool_cons, skipBits_bitsMSB, decodeInfo, bind,
      Except.bind, readClock_bytes, readTicks_bytes]

theorem readHeader_bytes (r : Record) (data : List Nat) :
    readHeader r ⟨PSIBuffer.unpackBytes data⟩ =
      match data with
      | [] => .error .underflow
      | b0 :: rest =>
        if bit b0 0 then decodeInfo { r with hrd_management_valid := bit b0 7 } rest
        else decodeFlags { r with hrd_management_valid := bit b0 7 } rest := by
  cases data with
  | nil => rfl
  | cons b0 rest =>
    rw [PSIBuffer.unpackBytes, headBits b0]
    simp only [readHeader, List.cons_append, List.append_assoc, List.nil_append, getBool_cons,
      skipBits_bitsMSB, bind, Except.bind, readInfo_bytes, readFlags_bytes]

theorem deserialize_eq_decodeBytes (b : List Nat) : deserialize b = decodeBytes b := by
  rw [deserialize, deserializePayload_staged, PSIBuffer.ofBytes, readHeader_bytes]
  cases b with
  | nil => rfl
  | cons b0 rest => rfl

/-! ## The decoder, by byte index -/

theorem decodeFlags_idx (r : Record) (l : List Nat) :
    decodeFlags r l =
      if l.length ≤ 0 then .error .underflow
      else .ok ({ r with fixed_frame_rate := bit (l.getD 0 0) 7, temporal_poc := bit (l.getD 0 0) 6,
                         picture_to_display_conversion := bit (l.getD 0 0) 5 },
                PSIBuffer.ofBytes (l.drop 1)) := by
  cases l <;> rfl

theorem decodeTicks_idx (r : Record) (l : List Nat) :
    decodeTicks r l =
      if l.length < 4 then .error .underflow
      else decodeFlags
        { r with
          num_units_in_tick := some (u32be (l.getD 0 0) (l.getD 1 0) (l.getD 2 0) (l.getD 3 0)) }
        (l.drop 4) := by
  rcases l with _ | ⟨t0, _ | ⟨t1, _ | ⟨t2, _ | ⟨t3, rest⟩⟩⟩⟩
  · rfl
  · rfl
  · rfl
  · rfl
  · have h : ¬ (t0 :: t1 :: t2 :: t3 :: rest).length < 4 := by simp
    rw [if_neg h]
    rfl

theorem decodeClock_idx (r : Record) (l : List Nat) :
    decodeClock r l =
      if l.length < 8 then .error .underflow
      else decodeTicks
        { r with
          N_90khz := some (u32be (l.getD 0 0) (l.getD 1 0) (l.getD 2 0) (l.getD 3 0))
          K_90khz := some (u32be (l.getD 4 0) (l.getD 5 0) (l.getD 6 0) (l.getD 7 0)) }
        (l.drop 8) := by
  by_cases h : l.length < 8
  · rw [decodeClock_short r l h, if_pos h]
  · rcases l with _ | ⟨n0, _ | ⟨n1, _ | ⟨n2, _ | ⟨n3, _ | ⟨k0, _ | ⟨k1, _ | ⟨k2, _ | ⟨k3, rest⟩⟩⟩⟩⟩⟩⟩⟩
    all_goals first
      | (exfalso; apply h; simp only [List.length_cons, List.length_nil]; omega)
      | skip
    rw [if_neg h]
    rfl

theorem decodeInfo_idx (r : Record) (l : List Nat) :
    decodeInfo r l =
      if l.length ≤ 0 then .error .underflow
      else if bit (l.getD 0 0) 7 then decodeClock r (l.drop 1) else decodeTicks r (l.drop 1) := by
  cases l <;> rfl

theorem getD_drop (l : List Nat) (k i : Nat) : (l.drop k).getD i 0 = l.getD (k + i) 0 := by
  simp [List.getD_eq_getElem?_getD, List.getElem?_drop]

theorem deserialize_indexed (b : List Nat) :
    deserialize b =
      if b.length ≤ flagsIndex b then .error .underflow
      else .ok (recordAt b, PSIBuffer.ofBytes (b.drop (flagsIndex b + 1))) := by
  rw [deserialize_eq_decodeBytes]
  cases b with
  | nil => rfl
  | cons b0 rest =>
    rw [decodeBytes]
    cases h0 : bit b0 0 with
    | false =>
      have hfi : flagsIndex (b0 :: rest) = 1 := by
        simp [flagsIndex, infoPresent, h0]
      have hr : recordAt (b0 :: rest) =
          { Record.default with
            hrd_management_valid := bit b0 7
            fixed_frame_rate := bit (rest.getD 0 0) 7
            temporal_poc := bit (rest.getD 0 0) 6
            picture_to_display_conversion := bit (rest.getD 0 0) 5 } := by
        simp [recordAt, hfi, infoPresent, h0, Record.default]
      rw [hfi, hr, decodeFlags_idx]
      simp only [Bool.false_eq_true, if_false, List.length_cons, List.drop_succ_cons]
      by_cases hl : rest.length ≤ 0
      · rw [if_pos hl, if_pos (by omega)]
      · rw [if_neg hl, if_neg (by omega)]
    | true =>
      rw [if_pos rfl, decodeInfo_idx]
      cases h1 : bit (rest.getD 0 0) 7 with
      | false =>
        have hfi : flagsIndex (b0 :: rest) = 6 := by
          simp only [flagsIndex, infoPresent, has90kHz, List.getD_cons_zero, List.getD_cons_succ,
            h0, h1, if_true, Bool.false_eq_true, if_false]
        have hr : recordAt (b0 :: rest) =
            { Record.default with
              hrd_management_valid := bit b0 7
              num_units_in_tick :=
                some (u32be (rest.getD 1 0) (rest.getD 2 0) (rest.getD 3 0) (rest.getD 4 0))
              fixed_frame_rate := bit (rest.getD 5 0) 7
              temporal_poc := bit (rest.getD 5 0) 6
              picture_to_display_conversion := bit (rest.getD 5 0) 5 } := by
          simp only [recordAt, hfi, infoPresent, has90kHz, List.getD_cons_zero,
            List.getD_cons_succ, h0, h1, Record.default, if_true, Bool.false_eq_true, if_false,
            Bool.and_false, Bool.and_true, Nat.reduceSub]
        rw [hfi, hr, decodeTicks_idx, decodeFlags_idx]
        simp only [Bool.false_eq_true, if_false, List.length_cons, List.drop_succ_cons,
          getD_drop, List.length_drop, List.drop_drop, Nat.reduceAdd]
        by_cases hl : rest.length + 1 ≤ 6
        · rw [if_pos hl]
          by_cases h2 : rest.length ≤ 0
          · rw [if_pos h2]
          · rw [if_neg h2]
            by_cases h3 : rest.length - 1 < 4
            · rw [if_pos h3]
            · rw [if_neg h3, if_pos (by omega)]
        · rw [if_neg hl, if_neg (by omega), if_neg (by omega), if_neg (by omega)]
      | true =>
        have hfi : flagsIndex (b0 :: rest) = 14 := by
          simp only [flagsIndex, infoPresent, has90kHz, List.getD_cons_zero, List.getD_cons_succ,
            h0, h1, if_true]
        have hr : recordAt (b0 :: rest) =
            { Record.default with
              hrd_management_valid := bit b0 7
              N_90khz :=
                some (u32be (rest.getD 1 0) (rest.getD 2 0) (rest.getD 3 0) (rest.getD 4 0))
              K_90khz :=
                some (u32be (rest.getD 5 0) (rest.getD 6 0) (rest.getD 7 0) (rest.getD 8 0))
              num_units_in_tick :=
                some (u32be (rest.getD 9 0) (rest.getD 10 0) (rest.getD 11 0) (rest.getD 12 0))
              fixed_frame_rate := bit (rest.getD 13 0) 7
              temporal_poc := bit (rest.getD 13 0) 6
              picture_to_display_conversion := bit (rest.getD 13 0) 5 } := by
          simp only [recordAt, hfi, infoPresent, has90kHz, List.getD_cons_zero,
            List.getD_cons_succ, h0, h1, Record.default, if_true, Bool.and_true, Nat.reduceSub]
        rw [hfi, hr, decodeClock_idx, decodeTicks_idx, decodeFlags_idx]
        simp only [if_true, List.length_cons, List.drop_succ_cons,
          getD_drop, List.length_drop, List.drop_drop, Nat.reduceAdd]
        by_cases hl : rest.length + 1 ≤ 14
        · rw [if_pos hl]
          by_cases h2 : rest.length ≤ 0
          · rw [if_pos h2]
          · rw [if_neg h2]
            by_cases h3 : rest.length - 1 < 8
            · rw [if_pos h3]
            · rw [if_neg h3]
              by_cases h4 : rest.length - 9 < 4
              · rw [if_pos h4]
              · rw [if_neg h4, if_pos (by omega)]
        · rw [if_neg hl, if_neg (by omega), if_neg (by omega), if_neg (by omega),
            if_neg (by omega)]

/-! ## Reserved bits -/

theorem and_two_pow_eq (x k : Nat) : x &&& 2 ^ k = if x.testBit k then 2 ^ k else 0 := by
  apply Nat.eq_of_testBit_eq
  intro i
  rw [Nat.testBit_and, Nat.testBit_two_pow]
  by_cases hi : k = i
  · subst hi; cases h7 : x.testBit k <;> simp [Nat.testBit_two_pow_self]
  · cases h7 : x.testBit k <;> simp [hi, Nat.testBit_two_pow]

theorem land_bit (x k : Nat) : (x &&& 2 ^ k != 0) = bit x k := by
  rw [and_two_pow_eq, bit, ← Nat.testBit_to_div_mod]
  cases x.testBit k <;> simp

theorem lor_bit (x y m k : Nat) (hm : m.testBit k = false) (h : x ||| m = y ||| m) :
    bit x k = bit y k := by
  have h7 := congrArg (fun z => z.testBit k) h
  simp only [Nat.testBit_or, hm, Bool.or_false] at h7
  rw [bit, bit, ← Nat.testBit_to_div_mod, ← Nat.testBit_to_div_mod, h7]

theorem flagsIndex_pos (b : List Nat) : 1 ≤ flagsIndex b := by
  unfold flagsIndex; split_ifs <;> omega

theorem getD_eq_of_mask_zero {b1 b2 : List Nat} (h : differOnlyInReserved b1 b2) (i : Nat)
    (hm : reservedMask b1 i = 0) : b1.getD i 0 = b2.getD i 0 := by
  by_cases hi : i < b1.length
  · have := h.2 i hi
    rw [hm, Nat.or_zero, Nat.or_zero] at this
    exact this
  · rw [List.getD_eq_default _ _ (by omega), List.getD_eq_default _ _ (by rw [← h.1]; omega)]

theorem bit_eq_of_mask {b1 b2 : List Nat} (h : differOnlyInReserved b1 b2) (i k : Nat)
    (hm : (reservedMask b1 i).testBit k = false) : bit (b1.getD i 0) k = bit (b2.getD i 0) k := by
  by_cases hi : i < b1.length
  · exact lor_bit _ _ _ k hm (h.2 i hi)
  · rw [List.getD_eq_default _ _ (by omega), List.getD_eq_default _ _ (by rw [← h.1]; omega)]

theorem infoPresent_eq {b1 b2 : List Nat} (h : differOnlyInReserved b1 b2) :
    infoPresent b1 = infoPresent b2 :=
  bit_eq_of_mask h 0 0 (by simp only [reservedMask, if_true]; decide)

theorem has90kHz_eq {b1 b2 : List Nat} (h : differOnlyInReserved b1 b2) :
    has90kHz b1 = has90kHz b2 := by
  apply bit_eq_of_mask h 1 7
  unfold reservedMask
  split_ifs <;> decide

theorem flagsIndex_eq {b1 b2 : List Nat} (h : differOnlyInReserved b1 b2) :
    flagsIndex b1 = flagsIndex b2 := by
  unfold flagsIndex
  rw [infoPresent_eq h, has90kHz_eq h]

theorem reservedMask_data (b : List Nat) (i : Nat) (h0 : 2 ≤ i) (h1 : i ≠ flagsIndex b) :
    reservedMask b i = 0 := by
  unfold reservedMask
  rw [if_neg (by omega), if_neg (by omega), if_neg h1]

theorem reservedMask_flags (b : List Nat) (k : Nat) (hk : 5 ≤ k) :
    (reservedMask b (flagsIndex b)).testBit k = false := by
  have hp := flagsIndex_pos b
  have h31 : Nat.testBit 0x1F k = false := Nat.testBit_lt_two_pow (by
    calc 0x1F < 2 ^ 5 := by decide
      _ ≤ 2 ^ k := Nat.pow_le_pow_right (by decide) hk)
  unfold reservedMask
  rw [if_neg (by omega)]
  by_cases hi : infoPresent b = true ∧ flagsIndex b = 1
  · exfalso
    have := hi.2
    unfold flagsIndex at this
    rw [hi.1] at this
    simp only [if_true] at this
    split_ifs at this <;> omega
  · rw [if_neg hi, if_pos rfl]
    exact h31

theorem recordAt_eq {b1 b2 : List Nat} (h : differOnlyInReserved b1 b2) :
    recordAt b1 = recordAt b2 := by
  have hI := infoPresent_eq h
  have hH := has90kHz_eq h
  have hF := flagsIndex_eq h
  have hfl : ∀ k, 5 ≤ k →
      bit (b1.getD (flagsIndex b1) 0) k = bit (b2.getD (flagsIndex b2) 0) k := by
    intro k hk
    rw [← hF]
    exact bit_eq_of_mask h _ k (reservedMask_flags b1 k hk)
  have hhrd : bit (b1.getD 0 0) 7 = bit (b2.getD 0 0) 7 :=
    bit_eq_of_mask h 0 7 (by simp only [reservedMask, if_true]; decide)
  have hdata : ∀ i, 2 ≤ i → i ≠ flagsIndex b1 → b1.getD i 0 = b2.getD i 0 :=
    fun i h0 h1 => getD_eq_of_mask_zero h i (reservedMask_data b1 i h0 h1)
  unfold recordAt
  simp only [← hI, ← hH, ← hF] at hfl ⊢
  rw [hhrd, hfl 7 (by omega), hfl 6 (by omega), hfl 5 (by omega)]
  cases hi : infoPresent b1 with
  | false => simp only [Bool.false_and, Bool.false_eq_true, if_false]
  | true =>
    cases hh : has90kHz b1 with
    | false =>
      have hfi : flagsIndex b1 = 6 := by simp only [flagsIndex, hi, hh, if_true, Bool.false_eq_true, if_false]
      simp only [Bool.and_false, Bool.false_eq_true, if_false, if_true, hfi, Nat.reduceSub]
      rw [hdata 2 (by omega) (by omega), hdata 3 (by omega) (by omega),
        hdata 4 (by omega) (by omega), hdata 5 (by omega) (by omega)]
    | true =>
      have hfi : flagsIndex b1 = 14 := by simp only [flagsIndex, hi, hh, if_true]
      simp only [Bool.and_true, if_true, hfi, Nat.reduceSub]
      rw [hdata 2 (by omega) (by omega), hdata 3 (by omega) (by omega),
        hdata 4 (by omega) (by omega), hdata 5 (by omega) (by omega),
        hdata 6 (by omega) (by omega), hdata 7 (by omega) (by omega),
        hdata 8 (by omega) (by omega), hdata 9 (by omega) (by omega),
        hdata 10 (by omega) (by omega), hdata 11 (by omega) (by omega),
        hdata 12 (by omega) (by omega), hdata 13 (by omega) (by omega)]

theorem drop_eq {b1 b2 : List Nat} (h : differOnlyInReserved b1 b2) :
    b1.drop (flagsIndex b1 + 1) = b2.drop (flagsIndex b2 + 1) := by
  rw [← flagsIndex_eq h]
  have hp := flagsIndex_pos b1
  apply List.ext_getElem?
  intro i
  rw [List.getElem?_drop, List.getElem?_drop]
  have hd := getD_eq_of_mask_zero h (flagsIndex b1 + 1 + i)
    (reservedMask_data b1 _ (by omega) (by omega))
  by_cases hi : flagsIndex b1 + 1 + i < b1.length
  · have hi2 : flagsIndex b1 + 1 + i < b2.length := by rw [← h.1]; exact hi
    rw [List.getD_eq_getElem _ _ hi, List.getD_eq_getElem _ _ hi2] at hd
    rw [List.getElem?_eq_getElem hi, List.getElem?_eq_getElem hi2, hd]
  · rw [List.getElem?_eq_none (by omega), List.getElem?_eq_none (by rw [← h.1]; omega)]

theorem getD_append_left (p s : List Nat) (i : Nat) (h : i < p.length) :
    (p ++ s).getD i 0 = p.getD i 0 := by
  rw [List.getD_eq_getElem _ _ h, List.getD_eq_getElem _ _ (by rw [List.length_append]; omega),
    List.getElem_append_left]

theorem flagsIndex_append (p s : List Nat) (h : 2 ≤ p.length) :
    flagsIndex (p ++ s) = flagsIndex p := by
  unfold flagsIndex infoPresent has90kHz
  rw [getD_append_left p s 0 (by omega), getD_append_left p s 1 (by omega)]

theorem length_of_consumed (b : List Nat) (r : Record)
    (h : deserialize b = .ok (r, ⟨[]⟩)) : b.length = flagsIndex b + 1 := by
  rw [deserialize_indexed] at h
  by_cases hl : b.length ≤ flagsIndex b
  · rw [if_pos hl] at h; cases h
  · rw [if_neg hl] at h
    have hu : PSIBuffer.unpackBytes (b.drop (flagsIndex b + 1)) = [] := by
      have := congrArg (fun x => x.map (fun y => y.2.bits)) h
      simpa [PSIBuffer.ofBytes, Except.map] using this
    have hlen := congrArg List.length hu
    rw [unpackBytes_length, List.length_drop, List.length_nil] at hlen
    omega

/-! ## The display routine on well-formed payloads -/

theorem land_80 (x : Nat) : (x &&& 0x80 != 0) = bit x 7 := land_bit x 7
theorem land_40 (x : Nat) : (x &&& 0x40 != 0) = bit x 6 := land_bit x 6
theorem land_20 (x : Nat) : (x &&& 0x20 != 0) = bit x 5 := land_bit x 5
theorem land_01 (x : Nat) : (x &&& 0x01 != 0) = bit x 0 := land_bit x 0

theorem memOf_lt (b : List Nat) (beyond : Nat → Nat) (i : Nat) (h : i < b.length) :
    memOf b beyond i = b.getD i 0 := by
  simp only [memOf, h, if_true]

theorem render_two (b : List Nat) (beyond : Nat → Nat) (hlen : b.length = 2)
    (hinfo : infoPresent b = false) :
    render b beyond =
      { lines := [Line.hrdManagementValid (bit (b.getD 0 0) 7),
                  Line.fixedFrameRate (bit (b.getD 1 0) 7),
                  Line.temporalPoc (bit (b.getD 1 0) 6),
                  Line.pictureToDisplayConversion (bit (b.getD 1 0) 5)],
        accesses := [Access.read 0 1, Access.shrink 2 1, Access.read 1 1, Access.shrink 1 1],
        data := 2, size := 0 } := by
  have m0 := memOf_lt b beyond 0 (by omega)
  have m1 := memOf_lt b beyond 1 (by omega)
  unfold infoPresent at hinfo
  have s1 : subSizeT 2 1 = 1 := by decide
  have s2 : subSizeT 1 1 = 0 := by decide
  simp only [render, DisplayDescriptor, hlen, DisplayState.deref, DisplayState.print,
    DisplayState.advance, land_80, land_40, land_20, land_01, m0, m1, hinfo, s1, s2,
    Bool.false_eq_true, if_false, if_true, ge_iff_le, Nat.reduceLeDiff, decide_True,
    decide_False, Bool.and_true, Bool.true_and, Bool.and_self, List.nil_append, List.cons_append,
    List.singleton_append, Nat.reduceAdd, Nat.zero_add, Nat.add_zero, le_refl]

theorem GetUInt32_memOf (b : List Nat) (beyond : Nat → Nat) (p : Nat) (h : p + 3 < b.length) :
    GetUInt32 (memOf b beyond) p =
      u32be (b.getD p 0) (b.getD (p + 1) 0) (b.getD (p + 2) 0) (b.getD (p + 3) 0) := by
  rw [GetUInt32, u32be, memOf_lt b beyond p (by omega), memOf_lt b beyond (p + 1) (by omega),
    memOf_lt b beyond (p + 2) (by omega), memOf_lt b beyond (p + 3) (by omega)]

theorem render_seven (b : List Nat) (beyond : Nat → Nat) (hlen : b.length = 7)
    (hinfo : infoPresent b = true) (hhas : has90kHz b = false) :
    render b beyond =
      { lines := [Line.hrdManagementValid (bit (b.getD 0 0) 7),
                  Line.numUnitsInTick
                    (u32be (b.getD 2 0) (b.getD 3 0) (b.getD 4 0) (b.getD 5 0)),
                  Line.fixedFrameRate (bit (b.getD 6 0) 7),
                  Line.temporalPoc (bit (b.getD 6 0) 6),
                  Line.pictureToDisplayConversion (bit (b.getD 6 0) 5)],
        accesses := [Access.read 0 1, Access.shrink 7 1, Access.read 1 1, Access.shrink 6 1,
                     Access.read 2 4, Access.shrink 5 4, Access.read 6 1, Access.shrink 1 1],
        data := 7, size := 0 } := by
  have m0 := memOf_lt b beyond 0 (by omega)
  have m1 := memOf_lt b beyond 1 (by omega)
  have m6 := memOf_lt b beyond 6 (by omega)
  have g2 := GetUInt32_memOf b beyond 2 (by omega)
  unfold infoPresent at hinfo
  unfold has90kHz at hhas
  have s1 : subSizeT 7 1 = 6 := by decide
  have s2 : subSizeT 6 1 = 5 := by decide
  have s3 : subSizeT 5 4 = 1 := by decide
  have s4 : subSizeT 1 1 = 0 := by decide
  simp only [render, DisplayDescriptor, hlen, DisplayState.deref, DisplayState.print,
    DisplayState.advance, land_80, land_40, land_20, land_01, m0, m1, m6, g2, hinfo, hhas,
    s1, s2, s3, s4,
    Bool.false_eq_true, if_false, if_true, ge_iff_le, Nat.reduceLeDiff, decide_True,
    decide_False, Bool.and_true, Bool.true_and, Bool.and_self, List.nil_append, List.cons_append,
    List.singleton_append, Nat.reduceAdd, Nat.zero_add, Nat.add_zero, le_refl]

theorem render_fifteen (b : List Nat) (beyond : Nat → Nat) (hlen : b.length = 15)
    (hinfo : infoPresent b = true) (hhas : has90kHz b = true) :
    render b beyond =
      { lines := [Line.hrdManagementValid (bit (b.getD 0 0) 7),
                  Line.clock90kHz
                    (u32be (b.getD 2 0) (b.getD 3 0) (b.getD 4 0) (b.getD 5 0))
                    (u32be (b.getD 6 0) (b.getD 7 0) (b.getD 8 0) (b.getD 9 0)),
                  Line.numUnitsInTick
                    (u32be (b.getD 10 0) (b.getD 11 0) (b.getD 12 0) (b.getD 13 0)),
                  Line.fixedFrameRate (bit (b.getD 14 0) 7),
                  Line.temporalPoc (bit (b.getD 14 0) 6),
                  Line.pictureToDisplayConversion (bit (b.getD 14 0) 5)],
        accesses := [Access.read 0 1, Access.shrink 15 1, Access.read 1 1, Access.shrink 14 1,
                     Access.read 2 4, Access.read 6 4, Access.shrink 13 8,
                     Access.read 10 4, Access.shrink 5 4, Access.read 14 1, Access.shrink 1 1],
        data := 15, size := 0 } := by
  have m0 := memOf_lt b beyond 0 (by omega)
  have m1 := memOf_lt b beyond 1 (by omega)
  have m14 := memOf_lt b beyond 14 (by omega)
  have g2 := GetUInt32_memOf b beyond 2 (by omega)
  have g6 := GetUInt32_memOf b beyond 6 (by omega)
  have g10 := GetUInt32_memOf b beyond 10 (by omega)
  unfold infoPresent at hinfo
  unfold has90kHz at hhas
  have s1 : subSizeT 15 1 = 14 := by decide
  have s2 : subSizeT 14 1 = 13 := by decide
  have s3 : subSizeT 13 8 = 5 := by decide
  have s4 : subSizeT 5 4 = 1 := by decide
  have s5 : subSizeT 1 1 = 0 := by decide
  simp only [render, DisplayDescriptor, hlen, DisplayState.deref, DisplayState.print,
    DisplayState.advance, land_80, land_40, land_20, land_01, m0, m1, m14, g2, g6, g10, hinfo,
    hhas, s1, s2, s3, s4, s5,
    Bool.false_eq_true, if_false, if_true, ge_iff_le, Nat.reduceLeDiff, decide_True,
    decide_False, Bool.and_true, Bool.true_and, Bool.and_self, List.nil_append, List.cons_append,
    List.singleton_append, Nat.reduceAdd, Nat.zero_add, Nat.add_zero, le_refl]

theorem record_of_consumed (b : List Nat) (r : Record) (u : PSIBuffer)
    (h : deserialize b = .ok (r, u)) : r = recordAt b := by
  rw [deserialize_indexed] at h
  by_cases hl : b.length ≤ flagsIndex b
  · rw [if_pos hl] at h; cases h
  · rw [if_neg hl] at h
    injection h with h
    injection h with h1 h2
    exact h1.symm

/-- The display of a one-byte payload whose `info_present` bit is set: the
routine dereferences the byte after the payload and decrements a zero counter,
which wraps; what follows depends on the byte found after the payload. -/
theorem render_one_info (x : Nat) (beyond : Nat → Nat) (hinfo : bit x 0 = true) :
    render [x] beyond =
      if bit (beyond 1) 7 then
        { lines := [Line.hrdManagementValid (bit x 7),
                    Line.clock90kHz (GetUInt32 (memOf [x] beyond) 2)
                      (GetUInt32 (memOf [x] beyond) 6),
                    Line.numUnitsInTick (GetUInt32 (memOf [x] beyond) 10),
                    Line.fixedFrameRate (bit (beyond 14) 7),
                    Line.temporalPoc (bit (beyond 14) 6),
                    Line.pictureToDisplayConversion (bit (beyond 14) 5)],
          accesses := [Access.read 0 1, Access.shrink 1 1, Access.read 1 1, Access.shrink 0 1,
                       Access.read 2 4, Access.read 6 4, Access.shrink (2 ^ 64 - 1) 8,
                       Access.read 10 4, Access.shrink (2 ^ 64 - 9) 4,
                       Access.read 14 1, Access.shrink (2 ^ 64 - 13) 1],
          data := 15, size := 2 ^ 64 - 14 }
      else
        { lines := [Line.hrdManagementValid (bit x 7)],
          accesses := [Access.read 0 1, Access.shrink 1 1, Access.read 1 1, Access.shrink 0 1],
          data := 2, size := 2 ^ 64 - 1 } := by
  have m0 : memOf [x] beyond 0 = x := rfl
  have m1 : memOf [x] beyond 1 = beyond 1 := rfl
  have m14 : memOf [x] beyond 14 = beyond 14 := rfl
  have s1 : subSizeT 1 1 = 0 := by decide
  have s2 : subSizeT 0 1 = 18446744073709551615 := by decide
  have s3 : subSizeT 18446744073709551615 8 = 18446744073709551607 := by decide
  have s4 : subSizeT 18446744073709551607 4 = 18446744073709551603 := by decide
  have s5 : subSizeT 18446744073709551603 1 = 18446744073709551602 := by decide
  cases hh : bit (beyond 1) 7 <;>
  simp only [render, DisplayDescriptor, List.length_singleton, DisplayState.deref,
    DisplayState.print, DisplayState.advance, land_80, land_40, land_20, land_01, m0, m1, m14,
    hinfo, hh, s1, s2, s3, s4, s5,
    Bool.false_eq_true, if_false, if_true, ge_iff_le, Nat.reduceLeDiff, decide_True,
    decide_False, Bool.and_true, Bool.true_and, Bool.and_self, Bool.false_and, Bool.and_false,
    List.nil_append, List.cons_append, List.singleton_append, Nat.reduceAdd, Nat.zero_add,
    Nat.add_zero, le_refl, Nat.reducePow, Nat.reduceSub]

/-! ## The display routine on arbitrary payloads -/

theorem subSizeT_eq (size n : Nat) (h : n ≤ size) (hs : size < 2 ^ 64) :
    subSizeT size n = size - n := by
  unfold subSizeT
  have hn : n % 2 ^ 64 = n := Nat.mod_eq_of_lt (by omega)
  rw [hn]
  have e : size + (2 ^ 64 - n) = (size - n) + 2 ^ 64 := by omega
  rw [e, Nat.add_mod_right, Nat.mod_eq_of_lt (by omega)]

theorem inv_print (n : Nat) (st : DisplayState) (ls : List Line) (h : DisplayInv n st) :
    DisplayInv n (st.print ls) := h

theorem inv_deref (n : Nat) (st : DisplayState) (off cnt : Nat) (h : DisplayInv n st)
    (hc : off + cnt ≤ st.size) : DisplayInv n (st.deref off cnt) := by
  refine ⟨h.1, ?_⟩
  intro a ha
  simp only [DisplayState.deref, List.mem_append, List.mem_singleton] at ha
  rcases ha with ha | ha
  · exact h.2 a ha
  · subst ha
    have := h.1
    simp only [Access.safe, decide_eq_true_eq]
    omega

theorem inv_advance (n : Nat) (st : DisplayState) (k : Nat) (h : DisplayInv n st)
    (hk : k ≤ st.size) (hn : n < 2 ^ 64) : DisplayInv n (st.advance k) := by
  have h1 := h.1
  refine ⟨?_, ?_⟩
  · simp only [DisplayState.advance]
    rw [subSizeT_eq _ _ hk (by omega)]
    omega
  · intro a ha
    simp only [DisplayState.advance, List.mem_append, List.mem_singleton] at ha
    rcases ha with ha | ha
    · exact h.2 a ha
    · subst ha
      simp only [Access.safe, decide_eq_true_eq]
      exact hk

/-- On every payload shorter than `2 ^ 64` bytes, other than a one-byte payload
with `info_present` set, the display routine keeps its invariant: every byte
it reads is inside the payload, no decrement exceeds the counter, and the
bytes handed to the extra-data fallback are the unconsumed suffix. -/
theorem render_inv (b : List Nat) (beyond : Nat → Nat) (hn : b.length < 2 ^ 64)
    (hg : ¬ (b.length = 1 ∧ infoPresent b = true)) :
    DisplayInv b.length (render b beyond) := by
  unfold render DisplayDescriptor
  by_cases h1 : b.length ≥ 1
  swap
  · simp only [h1, if_false]
    exact ⟨by simp, by simp⟩
  · have hinfo : (memOf b beyond 0 &&& 0x01 != 0) = infoPresent b := by
      rw [land_01, memOf_lt b beyond 0 (by omega)]; rfl
    have s1 : subSizeT b.length 1 = b.length - 1 := subSizeT_eq _ _ (by omega) hn
    simp only [h1, if_true, hinfo, DisplayState.deref, DisplayState.print, DisplayState.advance,
      s1, List.nil_append, Nat.zero_add, Nat.add_zero, List.cons_append, List.singleton_append]
    cases hi : infoPresent b with
    | false =>
      simp only [Bool.false_eq_true, if_false, Bool.and_self]
      by_cases h2 : b.length - 1 ≥ 1
      · have s2 : subSizeT (b.length - 1) 1 = b.length - 2 := by
          rw [subSizeT_eq _ _ (by omega) (by omega)]; omega
        simp only [h2, decide_True, if_true, s2]
        exact ⟨by simp only []; omega, by simp [Access.safe]; omega⟩
      · simp only [h2, decide_False, Bool.false_eq_true, if_false]
        exact ⟨by simp only []; omega, by simp [Access.safe]; omega⟩
    | true =>
      have h2 : b.length ≥ 2 := by
        by_contra hc
        exact hg ⟨by omega, hi⟩
      have s2 : subSizeT (b.length - 1) 1 = b.length - 2 := by
        rw [subSizeT_eq _ _ (by omega) (by omega)]; omega
      have hok : decide (b.length - 1 ≥ 1) = true := by
        simp only [ge_iff_le, decide_eq_true_eq]; omega
      simp only [if_true, s2, hok, Bool.true_and]
      cases hh : (memOf b beyond 1 &&& 128 != 0) with
      | false =>
        simp only [Bool.false_eq_true, if_false, Bool.true_and]
        by_cases h4 : b.length - 2 ≥ 4
        · have s3 : subSizeT (b.length - 2) 4 = b.length - 6 := by
            rw [subSizeT_eq _ _ (by omega) (by omega)]; omega
          simp only [h4, decide_True, if_true, s3, Bool.true_and]
          by_cases h5 : b.length - 6 ≥ 1
          · have s4 : subSizeT (b.length - 6) 1 = b.length - 7 := by
              rw [subSizeT_eq _ _ (by omega) (by omega)]; omega
            simp only [h5, decide_True, if_true, s4]
            exact ⟨by simp only []; omega, by simp [Access.safe]; omega⟩
          · simp only [h5, decide_False, Bool.false_eq_true, if_false]
            exact ⟨by simp only []; omega, by simp [Access.safe]; omega⟩
        · simp only [h4, decide_False, Bool.false_eq_true, if_false, Bool.false_and]
          exact ⟨by simp only []; omega, by simp [Access.safe]; omega⟩
      | true =>
        simp only [if_true]
        by_cases h8 : b.length - 2 ≥ 8
        · have s3 : subSizeT (b.length - 2) 8 = b.length - 10 := by
            rw [subSizeT_eq _ _ (by omega) (by omega)]; omega
          simp only [h8, decide_True, if_true, s3, Bool.true_and]
          by_cases h4 : b.length - 10 ≥ 4
          · have s4 : subSizeT (b.length - 10) 4 = b.length - 14 := by
              rw [subSizeT_eq _ _ (by omega) (by omega)]; omega
            simp only [h4, decide_True, if_true, s4, Bool.true_and]
            by_cases h5 : b.length - 14 ≥ 1
            · have s5 : subSizeT (b.length - 14) 1 = b.length - 15 := by
                rw [subSizeT_eq _ _ (by omega) (by omega)]; omega
              simp only [h5, decide_True, if_true, s5]
              exact ⟨by simp only []; omega, by simp [Access.safe]; omega⟩
            · simp only [h5, decide_False, Bool.false_eq_true, if_false]
              exact ⟨by simp only []; omega, by simp [Access.safe]; omega⟩
          · simp only [h4, decide_False, Bool.false_eq_true, if_false, Bool.false_and]
            exact ⟨by simp only []; omega, by simp [Access.safe]; omega⟩
        · simp only [h8, decide_False, Bool.false_eq_true, if_false, Bool.false_and]
          exact ⟨by simp only []; omega, by simp [Access.safe]; omega⟩

/-! ## Normalization -/

theorem serialize_normalize (r : Record) : serialize r.normalize = serialize r := by
  obtain ⟨hrd, N, K, T, ffr, tpoc, ptdc⟩ := r
  rw [serialize_eq, serialize_eq]
  cases T <;> cases N <;> cases K <;>
    simp [payloadBits, Record.normalize]

theorem normalize_coupled (r : Record) : r.normalize.coupled := by
  obtain ⟨hrd, N, K, T, ffr, tpoc, ptdc⟩ := r
  cases T <;> cases N <;> cases K <;> simp [Record.normalize, Record.coupled]

/-! ## Re-encoding a decoded payload -/

set_option maxRecDepth 100000 in
theorem header_or : ∀ x, x < 256 →
    ((bit x 7).toNat <<< 7) ||| 0x7E ||| (bit x 0).toNat = x ||| 0x7E := by
  decide

set_option maxRecDepth 100000 in
theorem info_or : ∀ x, x < 256 → ((bit x 7).toNat <<< 7) ||| 0x7F = x ||| 0x7F := by
  decide

set_option maxRecDepth 100000 in
theorem flags_or : ∀ x, x < 256 →
    ((bit x 7).toNat <<< 7) ||| ((bit x 6).toNat <<< 6) ||| ((bit x 5).toNat <<< 5) ||| 0x1F =
      x ||| 0x1F := by
  decide

theorem or_eq_iff (x m : Nat) : x ||| m = x ↔ x &&& m = m := by
  constructor
  · intro h
    apply Nat.eq_of_testBit_eq
    intro i
    have := congrArg (fun z => z.testBit i) h
    simp only [Nat.testBit_or, Nat.testBit_and] at this ⊢
    cases hx : x.testBit i <;> cases hm : m.testBit i <;> simp_all
  · intro h
    apply Nat.eq_of_testBit_eq
    intro i
    have := congrArg (fun z => z.testBit i) h
    simp only [Nat.testBit_or, Nat.testBit_and] at this ⊢
    cases hx : x.testBit i <;> cases hm : m.testBit i <;> simp_all

theorem be32_u32be (a b c d : Nat) (ha : a < 256) (hb : b < 256) (hc : c < 256)
    (hd : d < 256) : be32 (u32be a b c d) = [a, b, c, d] := by
  simp only [be32, u32be, Nat.reducePow]
  rw [Nat.mod_eq_of_lt ha, Nat.mod_eq_of_lt hb, Nat.mod_eq_of_lt hc, Nat.mod_eq_of_lt hd]
  have e1 : (a * 16777216 + b * 65536 + c * 256 + d) / 16777216 % 256 = a := by omega
  have e2 : (a * 16777216 + b * 65536 + c * 256 + d) / 65536 % 256 = b := by omega
  have e3 : (a * 16777216 + b * 65536 + c * 256 + d) / 256 % 256 = c := by omega
  have e4 : (a * 16777216 + b * 65536 + c * 256 + d) % 256 = d := by omega
  rw [e1, e2, e3, e4]

theorem reencode_two (b0 f : Nat) (hb : isBytes [b0, f]) (h0 : bit b0 0 = false) :
    serialize (recordAt [b0, f]) = setReserved [b0, f] := by
  have hb0 : b0 < 256 := hb b0 (by simp)
  have hf : f < 256 := hb f (by simp)
  have hr : List.range 2 = [0, 1] := by decide
  rw [serialize_eq_serializeRef]
  simp only [serializeRef, headerByte, infoBytes, flagsByte, recordAt, flagsIndex, infoPresent,
    has90kHz, setReserved, reservedMask, List.getD_cons_zero, List.getD_cons_succ, h0,
    List.length_cons, List.length_nil, Nat.reduceAdd, hr, List.map_cons, List.map_nil,
    Bool.false_eq_true, if_false, if_true, false_and, Bool.false_and, Option.isSome_none,
    Bool.toNat_false, Nat.or_zero, List.append_nil, List.singleton_append, List.cons_append,
    List.nil_append, OfNat.ofNat_ne_zero, one_ne_zero]
  have hh := header_or b0 hb0
  rw [h0] at hh
  simp only [Bool.toNat_false, Nat.or_zero] at hh
  rw [hh, flags_or f hf]

theorem reencode_seven (b0 b1 t0 t1 t2 t3 f : Nat) (hb : isBytes [b0, b1, t0, t1, t2, t3, f])
    (h0 : bit b0 0 = true) (h1 : bit b1 7 = false) :
    serialize (recordAt [b0, b1, t0, t1, t2, t3, f]) =
      setReserved [b0, b1, t0, t1, t2, t3, f] := by
  have hb0 : b0 < 256 := hb b0 (by simp)
  have hb1 : b1 < 256 := hb b1 (by simp)
  have ht0 : t0 < 256 := hb t0 (by simp)
  have ht1 : t1 < 256 := hb t1 (by simp)
  have ht2 : t2 < 256 := hb t2 (by simp)
  have ht3 : t3 < 256 := hb t3 (by simp)
  have hf : f < 256 := hb f (by simp)
  have hr : List.range 7 = [0, 1, 2, 3, 4, 5, 6] := by decide
  rw [serialize_eq_serializeRef]
  simp only [serializeRef, headerByte, infoBytes, flagsByte, recordAt, flagsIndex, infoPresent,
    has90kHz, setReserved, reservedMask, List.getD_cons_zero, List.getD_cons_succ, h0, h1,
    List.length_cons, List.length_nil, Nat.reduceAdd, Nat.reduceSub, hr, List.map_cons,
    List.map_nil, Bool.false_eq_true, if_false, if_true, false_and, true_and, Bool.false_and,
    Bool.and_false, Bool.true_and, Option.isSome_none, Option.isSome_some, Option.getD_some,
    Bool.toNat_false, Bool.toNat_true, Nat.or_zero, List.append_nil, List.singleton_append,
    List.cons_append, List.nil_append, OfNat.ofNat_ne_zero, one_ne_zero, Nat.reduceEqDiff,
    OfNat.ofNat_ne_one, be32_u32be _ _ _ _ ht0 ht1 ht2 ht3]
  have hh := header_or b0 hb0
  rw [h0] at hh
  simp only [Bool.toNat_true] at hh
  have hi := info_or b1 hb1
  rw [h1] at hi
  simp only [Bool.toNat_false] at hi
  rw [hh, hi, flags_or f hf]

theorem reencode_fifteen (b0 b1 n0 n1 n2 n3 k0 k1 k2 k3 t0 t1 t2 t3 f : Nat)
    (hb : isBytes [b0, b1, n0, n1, n2, n3, k0, k1, k2, k3, t0, t1, t2, t3, f])
    (h0 : bit b0 0 = true) (h1 : bit b1 7 = true) :
    serialize (recordAt [b0, b1, n0, n1, n2, n3, k0, k1, k2, k3, t0, t1, t2, t3, f]) =
      setReserved [b0, b1, n0, n1, n2, n3, k0, k1, k2, k3, t0, t1, t2, t3, f] := by
  have hb0 : b0 < 256 := hb b0 (by simp)
  have hb1 : b1 < 256 := hb b1 (by simp)
  have hn0 : n0 < 256 := hb n0 (by simp)
  have hn1 : n1 < 256 := hb n1 (by simp)
  have hn2 : n2 < 256 := hb n2 (by simp)
  have hn3 : n3 < 256 := hb n3 (by simp)
  have hk0 : k0 < 256 := hb k0 (by simp)
  have hk1 : k1 < 256 := hb k1 (by simp)
  have hk2 : k2 < 256 := hb k2 (by simp)
  have hk3 : k3 < 256 := hb k3 (by simp)
  have ht0 : t0 < 256 := hb t0 (by simp)
  have ht1 : t1 < 256 := hb t1 (by simp)
  have ht2 : t2 < 256 := hb t2 (by simp)
  have ht3 : t3 < 256 := hb t3 (by simp)
  have hf : f < 256 := hb f (by simp)
  have hr : List.range 15 = [0, 1, 2, 3, 4, 5, 6, 7, 8, 9, 10, 11, 12, 13, 14] := by decide
  rw [serialize_eq_serializeRef]
  simp only [serializeRef, headerByte, infoBytes, flagsByte, recordAt, flagsIndex, infoPresent,
    has90kHz, setReserved, reservedMask, List.getD_cons_zero, List.getD_cons_succ, h0, h1,
    List.length_cons, List.length_nil, Nat.reduceAdd, Nat.reduceSub, hr, List.map_cons,
    List.map_nil, Bool.false_eq_true, if_false, if_true, false_and, true_and, Bool.false_and,
    Bool.and_false, Bool.true_and, Bool.and_self, Option.isSome_none, Option.isSome_some,
    Option.getD_some, Bool.toNat_false, Bool.toNat_true, Nat.or_zero, List.append_nil,
    List.singleton_append, List.cons_append, List.nil_append, OfNat.ofNat_ne_zero, one_ne_zero,
    Nat.reduceEqDiff, OfNat.ofNat_ne_one, be32_u32be _ _ _ _ ht0 ht1 ht2 ht3,
    be32_u32be _ _ _ _ hn0 hn1 hn2 hn3, be32_u32be _ _ _ _ hk0 hk1 hk2 hk3]
  have hh := header_or b0 hb0
  rw [h0] at hh
  simp only [Bool.toNat_true] at hh
  have hi := info_or b1 hb1
  rw [h1] at hi
  simp only [Bool.toNat_true] at hi
  rw [hh, hi, flags_or f hf]

theorem setReserved_length (b : List Nat) : (setReserved b).length = b.length := by
  simp [setReserved]

theorem getD_setReserved (b : List Nat) (i : Nat) (h : i < b.length) :
    (setReserved b).getD i 0 = b.getD i 0 ||| reservedMask b i := by
  have hl : i < (setReserved b).length := by rw [setReserved_length]; exact h
  rw [List.getD_eq_getElem _ 0 hl]
  simp [setReserved]

theorem setReserved_eq_self_iff (b : List Nat) : setReserved b = b ↔ reservedAllOnes b := by
  constructor
  · intro h i hi
    have e := getD_setReserved b i hi
    rw [h] at e
    exact (or_eq_iff _ _).mp e.symm
  · intro h
    apply List.ext_getElem (setReserved_length b)
    intro i h1 h2
    rw [← List.getD_eq_getElem _ 0 h1, ← List.getD_eq_getElem _ 0 h2, getD_setReserved b i h2]
    exact (or_eq_iff _ _).mpr (h i h2)

theorem reencode (b : List Nat) (r : Record) (hb : isBytes b)
    (h : deserialize b = .ok (r, ⟨[]⟩)) : serialize r = setReserved b := by
  have hlen := length_of_consumed b r h
  have hr := record_of_consumed b r _ h
  subst hr
  cases hi : infoPresent b with
  | false =>
    have hfi : flagsIndex b = 1 := by
      simp only [flagsIndex, hi, Bool.false_eq_true, if_false]
    rw [hfi] at hlen
    rcases b with _ | ⟨b0, _ | ⟨f, _ | ⟨x, rest⟩⟩⟩
    all_goals first
      | (exfalso; simp only [List.length_cons, List.length_nil] at hlen; omega)
      | exact reencode_two b0 f hb hi
  | true =>
    cases hh : has90kHz b with
    | false =>
      have hfi : flagsIndex b = 6 := by
        simp only [flagsIndex, hi, hh, if_true, Bool.false_eq_true, if_false]
      rw [hfi] at hlen
      rcases b with _ | ⟨b0, _ | ⟨b1, _ | ⟨t0, _ | ⟨t1, _ | ⟨t2, _ | ⟨t3, _ | ⟨f, _ | ⟨x, rest⟩⟩⟩⟩⟩⟩⟩⟩
      all_goals first
        | (exfalso; simp only [List.length_cons, List.length_nil] at hlen; omega)
        | exact reencode_seven b0 b1 t0 t1 t2 t3 f hb hi hh
    | true =>
      have hfi : flagsIndex b = 14 := by
        simp only [flagsIndex, hi, hh, if_true]
      rw [hfi] at hlen
      rcases b with _ | ⟨b0, _ | ⟨b1, _ | ⟨n0, _ | ⟨n1, _ | ⟨n2, _ | ⟨n3, _ | ⟨k0, _ | ⟨k1,
        _ | ⟨k2, _ | ⟨k3, _ | ⟨t0, _ | ⟨t1, _ | ⟨t2, _ | ⟨t3, _ | ⟨f, _ | ⟨x, rest⟩⟩⟩⟩⟩⟩⟩⟩⟩⟩⟩⟩⟩⟩⟩⟩
      all_goals first
        | (exfalso; simp only [List.length_cons, List.length_nil] at hlen; omega)
        | exact reencode_fifteen b0 b1 n0 n1 n2 n3 k0 k1 k2 k3 t0 t1 t2 t3 f hb hi hh

/-! ## Attribute lemmas -/

theorem find_put (name m : String) (v : AttrValue) (l : List (String × AttrValue)) :
    Element.find name (Element.put m v l) = if name = m then some v else Element.find name l := by
  induction l with
  | nil =>
    by_cases h : name = m
    · subst h; simp [Element.put, Element.find]
    · have : ¬ m = name := fun e => h e.symm
      simp [Element.put, Element.find, h, this]
  | cons p rest ih =>
    obtain ⟨k, w⟩ := p
    by_cases hk : k = m
    · subst hk
      by_cases hn : name = k
      · subst hn; simp [Element.put, Element.find]
      · have : ¬ k = name := fun e => hn e.symm
        simp [Element.put, Element.find, hn, this]
    · by_cases hn : k = name
      · subst hn
        simp [Element.put, Element.find, hk]
      · simp [Element.put, Element.find, hk, hn, ih]

theorem getAttribute_setAttribute (e : Element) (m name : String) (v : AttrValue) :
    (e.setAttribute m v).getAttribute name =
      if name = m then some v else e.getAttribute name := by
  simp only [Element.setAttribute, Element.getAttribute, find_put]

theorem getAttribute_setBool (e : Element) (m name : String) (b : Bool) :
    (e.setBoolAttribute m b).getAttribute name =
      if name = m then some (.bool b) else e.getAttribute name :=
  getAttribute_setAttribute e m name _

theorem getAttribute_setOptionalInt (e : Element) (m name : String) (v : Option Nat) :
    (e.setOptionalIntAttribute m v).getAttribute name =
      if name = m ∧ v.isSome = true then v.map AttrValue.int else e.getAttribute name := by
  cases v with
  | none => simp [Element.setOptionalIntAttribute]
  | some n =>
    simp only [Element.setOptionalIntAttribute, getAttribute_setAttribute, Option.isSome_some,
      and_true, Option.map_some']

theorem getAttribute_empty (name : String) : (⟨[]⟩ : Element).getAttribute name = none := rfl

theorem toText_getAttribute_eq (r : Record) (name : String) :
    (toText r).getAttribute name =
      if name = "picture_to_display_conversion" then
        some (.bool r.picture_to_display_conversion)
      else if name = "temporal_poc" then some (.bool r.temporal_poc)
      else if name = "fixed_frame_rate" then some (.bool r.fixed_frame_rate)
      else if name = "num_units_in_tick" ∧ r.num_units_in_tick.isSome = true then
        r.num_units_in_tick.map AttrValue.int
      else if name = "K_90khz" ∧ r.K_90khz.isSome = true then r.K_90khz.map AttrValue.int
      else if name = "N_90khz" ∧ r.N_90khz.isSome = true then r.N_90khz.map AttrValue.int
      else if name = "hrd_management_valid" then some (.bool r.hrd_management_valid)
      else none := by
  simp only [toText, buildXML, getAttribute_setBool, getAttribute_setOptionalInt,
    getAttribute_empty]

theorem toText_getAttribute (r : Record) (name : String) :
    (toText r).getAttribute name = attrOf r name := by
  rw [toText_getAttribute_eq]
  unfold attrOf
  by_cases h1 : name = "hrd_management_valid"
  · subst h1; simp
  by_cases h2 : name = "N_90khz"
  · subst h2; cases r.N_90khz <;> simp
  by_cases h3 : name = "K_90khz"
  · subst h3; cases r.K_90khz <;> simp
  by_cases h4 : name = "num_units_in_tick"
  · subst h4; cases r.num_units_in_tick <;> simp
  by_cases h5 : name = "fixed_frame_rate"
  · subst h5; simp
  by_cases h6 : name = "temporal_poc"
  · subst h6; simp
  by_cases h7 : name = "picture_to_display_conversion"
  · subst h7; simp
  simp [h1, h2, h3, h4, h5, h6, h7]

/-! ## The attribute readers -/

theorem bind_eq_ok {ε α β : Type} (x : Except ε α) (f : α → Except ε β) (b : β) :
    (x >>= f) = .ok b ↔ ∃ a, x = .ok a ∧ f a = .ok b := by
  cases x <;> simp [bind, Except.bind]

theorem getBool_eq_ok (e : Element) (name : String) (d b : Bool) :
    e.getBoolAttribute name true d = .ok b ↔ e.getAttribute name = some (.bool b) := by
  unfold Element.getBoolAttribute
  rcases h : e.getAttribute name with _ | v
  · simp
  · cases v <;> simp

theorem getOptionalInt_eq_ok (e : Element) (name : String) (v : Option Nat) :
    e.getOptionalIntAttribute name = .ok v ↔ holdsInt e name v := by
  unfold Element.getOptionalIntAttribute holdsInt
  rcases h : e.getAttribute name with _ | w
  · cases v <;> simp
  · cases w with
    | bool b => cases v <;> simp
    | text s => cases v <;> simp
    | int n =>
      by_cases hn : n < 2 ^ 32
      · cases v with
        | none => simp only [hn, if_true]; simp
        | some m =>
          simp only [hn, if_true, Except.ok.injEq, Option.some.injEq, AttrValue.int.injEq]
          constructor
          · intro h; subst h; exact ⟨rfl, hn⟩
          · intro h; exact h.1
      · cases v with
        | none => simp only [hn, if_false]; simp
        | some m =>
          simp only [hn, if_false, Option.some.injEq, AttrValue.int.injEq, false_iff, not_and,
            reduceCtorEq]
          intro h; subst h; exact hn

theorem fromText_eq_ok (tree : Element) (r : Record) :
    fromText tree = .ok r ↔ readsAs tree r := by
  obtain ⟨hrd, N, K, T, ffr, tpoc, ptdc⟩ := r
  simp only [fromText, analyzeXML, bind_eq_ok, getBool_eq_ok, getOptionalInt_eq_ok, readsAs,
    clearContent, pure, Except.pure, Except.ok.injEq, Record.mk.injEq]
  constructor
  · rintro ⟨a, ha, n, hn, k, hk, t, ht, f, hf, p, hp, c, hc, h1, h2, h3, h4, h5, h6, h7⟩
    subst h1 h2 h3 h4 h5 h6 h7
    exact ⟨ha, hn, hk, ht, hf, hp, hc⟩
  · rintro ⟨ha, hn, hk, ht, hf, hp, hc⟩
    exact ⟨_, ha, _, hn, _, hk, _, ht, _, hf, _, hp, _, hc, rfl, rfl, rfl, rfl, rfl, rfl, rfl⟩

theorem attrOf_mem (r : Record) (name : String) (v : AttrValue) (h : attrOf r name = some v) :
    name ∈ boolAttributes ++ intAttributes := by
  unfold attrOf at h
  simp only [boolAttributes, intAttributes, List.cons_append, List.nil_append, List.mem_cons,
    List.mem_singleton, List.not_mem_nil, or_false]
  split_ifs at h <;> simp_all

theorem readsAs_toText (r : Record) (hr : r.isUInt32) : readsAs (toText r) r := by
  obtain ⟨hrd, N, K, T, ffr, tpoc, ptdc⟩ := r
  obtain ⟨hN, hK, hT⟩ := hr
  refine ⟨?_, ?_, ?_, ?_, ?_, ?_, ?_⟩
  · rw [toText_getAttribute]; simp [attrOf]
  · cases N with
    | none => simp only [holdsInt]; rw [toText_getAttribute]; simp [attrOf]
    | some n =>
      refine ⟨?_, hN n rfl⟩
      rw [toText_getAttribute]; simp [attrOf]
  · cases K with
    | none => simp only [holdsInt]; rw [toText_getAttribute]; simp [attrOf]
    | some n =>
      refine ⟨?_, hK n rfl⟩
      rw [toText_getAttribute]; simp [attrOf]
  · cases T with
    | none => simp only [holdsInt]; rw [toText_getAttribute]; simp [attrOf]
    | some n =>
      refine ⟨?_, hT n rfl⟩
      rw [toText_getAttribute]; simp [attrOf]
  · rw [toText_getAttribute]; simp [attrOf]
  · rw [toText_getAttribute]; simp [attrOf]
  · rw [toText_getAttribute]; simp [attrOf]

theorem fromText_toText (r : Record) (hr : r.isUInt32) : fromText (toText r) = .ok r :=
  (fromText_eq_ok _ _).mpr (readsAs_toText r hr)

theorem treeShuffled_reads : fromText treeShuffled = .ok recordShuffled := by
  rw [fromText_eq_ok]
  have hN : treeShuffled.getAttribute "N_90khz" = none := by decide
  have hK : treeShuffled.getAttribute "K_90khz" = none := by decide
  exact ⟨by decide, hN, hK, ⟨by decide, by decide⟩, by decide, by decide, by decide⟩

theorem treeShuffled_names (name : String) (v : AttrValue)
    (h : treeShuffled.getAttribute name = some v) : name ∈ boolAttributes ++ intAttributes := by
  simp only [treeShuffled, Element.getAttribute, Element.find] at h
  simp only [boolAttributes, intAttributes, List.cons_append, List.nil_append, List.mem_cons,
    List.mem_singleton, List.not_mem_nil, or_false]
  split_ifs at h <;> simp_all

theorem getBool_cases (e : Element) (name : String) (d : Bool)
    (h : ∀ v, e.getAttribute name = some v → ∃ b, v = .bool b) :
    (e.getAttribute name = none ∧ e.getBoolAttribute name true d = .error .missingAttribute) ∨
    (∃ b, e.getAttribute name = some (.bool b) ∧ e.getBoolAttribute name true d = .ok b) := by
  unfold Element.getBoolAttribute
  rcases hv : e.getAttribute name with _ | v
  · left; exact ⟨rfl, rfl⟩
  · obtain ⟨b, hb⟩ := h v hv
    subst hb
    right; exact ⟨b, rfl, rfl⟩

theorem getOptionalInt_total (e : Element) (name : String)
    (h : ∀ v, e.getAttribute name = some v → ∃ n, v = .int n ∧ n < 2 ^ 32) :
    ∃ v, e.getOptionalIntAttribute name = .ok v := by
  unfold Element.getOptionalIntAttribute
  rcases hv : e.getAttribute name with _ | v
  · exact ⟨none, rfl⟩
  · obtain ⟨n, hn, hlt⟩ := h v hv
    subst hn
    exact ⟨some n, by simp only [hlt, if_true]⟩

/-! ## Claims on the binary form -/

/-- C1: binary round trip. For every record that satisfies the coupling
invariant (and whose optional fields hold 32-bit values), deserializing
`serialize r` into a freshly cleared record succeeds, consumes every bit and
yields a record equal to `r`. -/
theorem C1_round_trip (r : Record) (hc : r.coupled) (hr : r.isUInt32) :
    deserialize (serialize r) = .ok (r, ⟨[]⟩) := by
  rw [deserialize_serialize, normalize_of_coupled r hc hr]

theorem C1_round_trip_witness :
    sampleFull.coupled ∧ sampleFull.isUInt32 ∧
      deserialize (serialize sampleFull) = .ok (sampleFull, ⟨[]⟩) :=
  ⟨by simp [Record.coupled, sampleFull], by simp [Record.isUInt32, sampleFull],
   C1_round_trip sampleFull (by simp [Record.coupled, sampleFull])
    (by simp [Record.isUInt32, sampleFull])⟩

/-- C2: `serialize` equals the reference byte layout for every record: the
header byte, then (only with `info_present`) the 90 kHz byte, the optional
big-endian pair and the big-endian tick count, then the flags byte. Every
reserved bit is written as 1: bits `0x7E` of the header byte, bits `0x1F` of
the flags byte and, with `info_present`, bits `0x7F` of the byte that opens the
info section. -/
theorem C2_serialize_layout (r : Record) :
    serialize r = serializeRef r ∧
    serialize r = headerByte r :: (infoBytes r ++ [flagsByte r]) ∧
    headerByte r &&& 0x7E = 0x7E ∧ flagsByte r &&& 0x1F = 0x1F ∧
    (if r.num_units_in_tick.isSome then ∃ g tl, infoBytes r = g :: tl ∧ g &&& 0x7F = 0x7F
     else infoBytes r = []) := by
  refine ⟨serialize_eq_serializeRef r, serialize_eq_serializeRef r, headByte_reserved _ _,
    flagsByte_reserved _ _ _, ?_⟩
  cases h : r.num_units_in_tick.isSome
  · simp only [Bool.false_eq_true, if_false, infoBytes, h]
  · simp only [if_true, infoBytes, h, List.singleton_append, List.cons_append]
    exact ⟨_, _, rfl, infoByte_reserved _⟩

/-- C3: divergence case. For every record with `N_90khz` and `K_90khz` both set
and `num_units_in_tick` unset, the serialized bytes are the header byte and
the flags byte only (so they carry neither `N_90khz` nor `K_90khz` and equal
the bytes of the same record without the pair), and decoding them yields the
record with all three optionals unset and the four booleans of `r`. -/
theorem C3_orphan_clock_dropped (r : Record) (n k : Nat)
    (hN : r.N_90khz = some n) (hK : r.K_90khz = some k) (hT : r.num_units_in_tick = none) :
    serialize r = [(r.hrd_management_valid.toNat <<< 7) ||| 0x7E, flagsByte r] ∧
    serialize r = serialize { r with N_90khz := none, K_90khz := none } ∧
    deserialize (serialize r) =
      .ok ({ r with N_90khz := none, K_90khz := none, num_units_in_tick := none }, ⟨[]⟩) := by
  obtain ⟨hrd, N, K, T, ffr, tpoc, ptdc⟩ := r
  simp only at hN hK hT
  subst hN hK hT
  refine ⟨?_, ?_, ?_⟩
  · rw [serialize_eq_serializeRef]
    simp only [serializeRef, headerByte, infoBytes, Option.isSome_none, Bool.toNat_false,
      Nat.or_zero, Bool.false_eq_true, if_false, List.append_nil, List.singleton_append]
  · rw [serialize_eq_serializeRef, serialize_eq_serializeRef]
    rfl
  · rw [deserialize_serialize]
    rfl

theorem C3_orphan_clock_dropped_witness :
    serialize sampleOrphanClock = [0xFE, 0x5F] ∧
    deserialize (serialize sampleOrphanClock) =
      .ok ({ sampleOrphanClock with
              N_90khz := none, K_90khz := none, num_units_in_tick := none }, ⟨[]⟩) :=
  ⟨(C3_orphan_clock_dropped sampleOrphanClock 90000 1 rfl rfl rfl).1,
   (C3_orphan_clock_dropped sampleOrphanClock 90000 1 rfl rfl rfl).2.2⟩

/-- C4, as stated, fails: the default record does not serialize to the single
byte `0x7E`; the flags byte always follows. -/
theorem C4_counterexample :
    ¬ (serialize Record.default = [0x7E] ∧ (serialize Record.default).length = 1) := by
  decide

/-- C4, amended: the default record serializes to exactly two bytes, `0x7E`
then the flags byte `0x1F`, and two bytes is the minimum length of the binary
form. -/
theorem C4_minimum_form :
    serialize Record.default = [0x7E, 0x1F] ∧ ∀ r : Record, 2 ≤ (serialize r).length := by
  refine ⟨by decide, fun r => ?_⟩
  rw [serialize_length]
  split_ifs <;> omega

/-- C5: maximum form. Every record with `N_90khz`, `K_90khz` and
`num_units_in_tick` all set serializes to exactly 15 bytes, whatever its
booleans, and no record serializes to more than 15 bytes. -/
theorem C5_maximum_form (r : Record) :
    (r.N_90khz.isSome = true → r.K_90khz.isSome = true →
      r.num_units_in_tick.isSome = true → (serialize r).length = 15) ∧
    (serialize r).length ≤ 15 := by
  rw [serialize_length]
  refine ⟨fun h1 h2 h3 => by simp [h1, h2, h3], ?_⟩
  split_ifs <;> omega

theorem C5_maximum_form_witness : (serialize sampleFull).length = 15 :=
  (C5_maximum_form sampleFull).1 rfl rfl rfl

/-- C6: reserved bits are ignored on read. Two byte sequences of equal length
that differ only in reserved bit positions give the same outcome of
`deserialize`: both fail with the same condition, or both succeed with equal
records (and equal unread remainders). -/
theorem C6_reserved_bits_ignored (b1 b2 : List Nat) (h : differOnlyInReserved b1 b2) :
    deserialize b1 = deserialize b2 := by
  rw [deserialize_indexed, deserialize_indexed, recordAt_eq h, drop_eq h, flagsIndex_eq h, h.1]

theorem C6_reserved_bits_ignored_witness :
    differOnlyInReserved [0x7F, 0x7F, 0, 0, 3, 233, 0xBF] [0x01, 0x12, 0, 0, 3, 233, 0xA0] ∧
      deserialize [0x7F, 0x7F, 0, 0, 3, 233, 0xBF] =
        deserialize [0x01, 0x12, 0, 0, 3, 233, 0xA0] :=
  ⟨by unfold differOnlyInReserved; decide,
   C6_reserved_bits_ignored _ _ (by unfold differOnlyInReserved; decide)⟩

/-! ## Claims on the display routine -/

/-- C7, at the failing input: on the one-byte payload `0x01` (`info_present`
set, nothing after it) the display routine dereferences offset 1, outside the
one-byte span, and executes `size--` on a counter that holds 0, whatever the
memory after the payload contains. -/
theorem C7_render_reads_past_end (beyond : Nat → Nat) :
    Access.read 1 1 ∈ (render [0x01] beyond).accesses ∧
    Access.shrink 0 1 ∈ (render [0x01] beyond).accesses ∧
    Access.safe 1 (Access.read 1 1) = false ∧ Access.safe 1 (Access.shrink 0 1) = false := by
  rw [render_one_info 1 beyond (by decide)]
  refine ⟨?_, ?_, by decide, by decide⟩
  · split_ifs <;> simp
  · split_ifs <;> simp

/-- C8: the display agrees with the decoder. For every byte sequence `b` that
`deserialize` accepts while consuming all of `b`, `render b` writes exactly the
lines of the decoded record, in layout order: `hrd_management_valid`, the
90 kHz pair when set, `num_units_in_tick` when set, then the three flags, each
with the decoded value; and the trailing blob is empty. In particular this
holds for `b = serialize r`, whose decoded record is `r.normalize`. -/
theorem C8_render_agrees_with_deserialize (beyond : Nat → Nat) :
    (∀ (b : List Nat) (r : Record), deserialize b = .ok (r, ⟨[]⟩) →
      (render b beyond).lines = linesOf r ∧ (render b beyond).size = 0 ∧
        (render b beyond).data = b.length) ∧
    (∀ r : Record, deserialize (serialize r) = .ok (r.normalize, ⟨[]⟩) ∧
      (render (serialize r) beyond).lines = linesOf r.normalize ∧
        (render (serialize r) beyond).size = 0) := by
  have main : ∀ (b : List Nat) (r : Record), deserialize b = .ok (r, ⟨[]⟩) →
      (render b beyond).lines = linesOf r ∧ (render b beyond).size = 0 ∧
        (render b beyond).data = b.length := by
    intro b r h
    have hlen := length_of_consumed b r h
    have hr := record_of_consumed b r _ h
    subst hr
    cases hi : infoPresent b with
    | false =>
      have hfi : flagsIndex b = 1 := by
        simp only [flagsIndex, hi, Bool.false_eq_true, if_false]
      rw [hfi] at hlen
      rw [render_two b beyond hlen hi]
      simp only [linesOf, recordAt, hfi, hi, hlen, Bool.false_and, Bool.false_eq_true, if_false,
        List.append_nil, List.singleton_append, List.nil_append, and_self]
    | true =>
      cases hh : has90kHz b with
      | false =>
        have hfi : flagsIndex b = 6 := by
          simp only [flagsIndex, hi, hh, if_true, Bool.false_eq_true, if_false]
        rw [hfi] at hlen
        rw [render_seven b beyond hlen hi hh]
        simp only [linesOf, recordAt, hfi, hi, hh, hlen, Bool.and_false, Bool.false_eq_true,
          if_false, if_true, Nat.reduceSub, List.append_nil, List.singleton_append,
          List.nil_append, List.cons_append, and_self]
      | true =>
        have hfi : flagsIndex b = 14 := by
          simp only [flagsIndex, hi, hh, if_true]
        rw [hfi] at hlen
        rw [render_fifteen b beyond hlen hi hh]
        simp only [linesOf, recordAt, hfi, hi, hh, hlen, Bool.and_true, if_true, Nat.reduceSub,
          List.append_nil, List.singleton_append, List.nil_append, List.cons_append, and_self]
  refine ⟨main, fun r => ?_⟩
  have h := deserialize_serialize r
  exact ⟨h, (main _ _ h).1, (main _ _ h).2.1⟩

theorem C8_render_agrees_with_deserialize_witness :
    deserialize [0x7E, 0x1F] = .ok (Record.default, ⟨[]⟩) ∧
      (render [0x7E, 0x1F] (fun _ => 0xFF)).lines = linesOf Record.default ∧
      (render [0x7E, 0x1F] (fun _ => 0xFF)).size = 0 ∧
      (render [0x7E, 0x1F] (fun _ => 0xFF)).data = 2 :=
  ⟨rfl, (C8_render_agrees_with_deserialize (fun _ => 0xFF)).1 [0x7E, 0x1F] Record.default rfl⟩

/-- C9, at the failing input: on the one-byte payload `0x01` the pointer handed
to the extra-data fallback is at least 2 bytes after the start of a one-byte
span, and the size handed over is at least `2 ^ 64 - 14`: the blob is not the
unconsumed suffix of the input. -/
theorem C9_render_blob_exceeds_input (beyond : Nat → Nat) :
    2 ≤ (render [0x01] beyond).data ∧ 2 ^ 64 - 14 ≤ (render [0x01] beyond).size ∧
    (render [0x01] beyond).data + (render [0x01] beyond).size ≠ [0x01].length := by
  rw [render_one_info 1 beyond (by decide)]
  split_ifs <;> simp only [List.length_singleton] <;> omega

/-! ## Claims on truncated input -/

/-- C10: underflow on exhausted input. For every record `r` and every strict
initial segment `p` of `serialize r` (the empty sequence included),
`deserialize p` reports the underflow condition and returns no record. -/
theorem C10_underflow_on_truncation (r : Record) (p s : List Nat) (h : serialize r = p ++ s)
    (hs : s ≠ []) : deserialize p = .error .underflow := by
  have hlen := length_of_consumed (serialize r) r.normalize (deserialize_serialize r)
  rw [h, List.length_append] at hlen
  have hspos : 0 < s.length := List.length_pos.mpr hs
  have hp := flagsIndex_pos p
  rw [deserialize_indexed, if_pos]
  by_cases h2 : 2 ≤ p.length
  · rw [flagsIndex_append p s h2] at hlen
    omega
  · by_cases h0 : p.length = 0
    · omega
    · have h1 : p.length = 1 := by omega
      have hinfo : infoPresent (p ++ s) = infoPresent p := by
        unfold infoPresent
        rw [getD_append_left p s 0 (by omega)]
      unfold flagsIndex at hlen ⊢
      rw [hinfo] at hlen
      split_ifs at hlen ⊢ <;> omega

theorem C10_underflow_on_truncation_witness :
    serialize Record.default = [0x7E] ++ [0x1F] ∧ [0x1F] ≠ ([] : List Nat) ∧
      deserialize [0x7E] = .error .underflow :=
  ⟨by decide, by decide, C10_underflow_on_truncation Record.default [0x7E] [0x1F] (by decide)
    (by decide)⟩

/-! ## Claims on the attribute tree -/

/-- C11: `toText (fromText tree)` reproduces the attribute set. For every tree
on which `fromText` succeeds and whose attributes are among the seven named
ones, the node written by `toText` for the resulting record has, under every
name, exactly what the tree has: the same attribute names and, for each, the
same boolean or 32-bit unsigned value. -/
theorem C11_toText_fromText (tree : Element) (r : Record) (h : fromText tree = .ok r)
    (hn : ∀ name v, tree.getAttribute name = some v →
      name ∈ boolAttributes ++ intAttributes) :
    ∀ name, (toText r).getAttribute name = tree.getAttribute name := by
  obtain ⟨ha, hN, hK, hT, hf, hp, hc⟩ := (fromText_eq_ok _ _).mp h
  intro name
  rw [toText_getAttribute]
  unfold attrOf
  by_cases h1 : name = "hrd_management_valid"
  · subst h1; rw [if_pos rfl, ha]
  rw [if_neg h1]
  by_cases h2 : name = "N_90khz"
  · subst h2; rw [if_pos rfl]
    cases hv : r.N_90khz with
    | none => rw [hv] at hN; exact hN.symm
    | some n => rw [hv] at hN; exact hN.1.symm
  rw [if_neg h2]
  by_cases h3 : name = "K_90khz"
  · subst h3; rw [if_pos rfl]
    cases hv : r.K_90khz with
    | none => rw [hv] at hK; exact hK.symm
    | some n => rw [hv] at hK; exact hK.1.symm
  rw [if_neg h3]
  by_cases h4 : name = "num_units_in_tick"
  · subst h4; rw [if_pos rfl]
    cases hv : r.num_units_in_tick with
    | none => rw [hv] at hT; exact hT.symm
    | some n => rw [hv] at hT; exact hT.1.symm
  rw [if_neg h4]
  by_cases h5 : name = "fixed_frame_rate"
  · subst h5; rw [if_pos rfl, hf]
  rw [if_neg h5]
  by_cases h6 : name = "temporal_poc"
  · subst h6; rw [if_pos rfl, hp]
  rw [if_neg h6]
  by_cases h7 : name = "picture_to_display_conversion"
  · subst h7; rw [if_pos rfl, hc]
  rw [if_neg h7]
  rcases hv : tree.getAttribute name with _ | v
  · rfl
  · exfalso
    have hm := hn name v hv
    simp only [boolAttributes, intAttributes, List.cons_append, List.nil_append, List.mem_cons,
      List.mem_singleton, List.not_mem_nil, or_false] at hm
    rcases hm with hm | hm | hm | hm | hm | hm | hm
    · exact h1 hm
    · exact h5 hm
    · exact h6 hm
    · exact h7 hm
    · exact h2 hm
    · exact h3 hm
    · exact h4 hm

theorem C11_toText_fromText_witness :
    fromText treeShuffled = .ok recordShuffled ∧
    ∀ name, (toText recordShuffled).getAttribute name = treeShuffled.getAttribute name :=
  ⟨treeShuffled_reads,
   C11_toText_fromText treeShuffled recordShuffled treeShuffled_reads treeShuffled_names⟩

/-- C12: among well-typed trees `fromText` fails exactly on a missing required
boolean. For every tree whose present attributes hold well-formed values,
`fromText` fails if and only if one of the four boolean attributes is absent;
the failure is then `MissingAttribute`; and with the four booleans present it
succeeds whether or not `N_90khz`, `K_90khz`, `num_units_in_tick` are
present. -/
theorem C12_fromText_failure (tree : Element) (hwt : wellTyped tree) :
    ((∃ err, fromText tree = .error err) ↔
      ∃ name ∈ boolAttributes, tree.getAttribute name = none) ∧
    (∀ err, fromText tree = .error err → err = .missingAttribute) ∧
    ((∀ name ∈ boolAttributes, tree.getAttribute name ≠ none) →
      ∃ r, fromText tree = .ok r) := by
  obtain ⟨hb, hi⟩ := hwt
  obtain ⟨n, hn⟩ := getOptionalInt_total tree "N_90khz" (hi _ (by simp [intAttributes]))
  obtain ⟨k, hk⟩ := getOptionalInt_total tree "K_90khz" (hi _ (by simp [intAttributes]))
  obtain ⟨t, ht⟩ :=
    getOptionalInt_total tree "num_units_in_tick" (hi _ (by simp [intAttributes]))
  have c1 := getBool_cases tree "hrd_management_valid" false (hb _ (by simp [boolAttributes]))
  have c2 := getBool_cases tree "fixed_frame_rate" false (hb _ (by simp [boolAttributes]))
  have c3 := getBool_cases tree "temporal_poc" false (hb _ (by simp [boolAttributes]))
  have c4 := getBool_cases tree "picture_to_display_conversion" false
    (hb _ (by simp [boolAttributes]))
  rcases c1 with ⟨a1, g1⟩ | ⟨b1, a1, g1⟩ <;> rcases c2 with ⟨a2, g2⟩ | ⟨b2, a2, g2⟩ <;>
    rcases c3 with ⟨a3, g3⟩ | ⟨b3, a3, g3⟩ <;> rcases c4 with ⟨a4, g4⟩ | ⟨b4, a4, g4⟩ <;>
    simp [fromText, analyzeXML, boolAttributes, hn, hk, ht, g1, g2, g3, g4, a1, a2, a3, a4,
      bind, Except.bind, pure, Except.pure]

theorem C12_fromText_failure_witness :
    wellTyped treeThreeBooleans ∧
    (∃ err, fromText treeThreeBooleans = .error err) ∧
    fromText treeThreeBooleans = .error .missingAttribute :=
  have hw : wellTyped treeThreeBooleans := by
    constructor
    · intro name _ v hv
      simp only [treeThreeBooleans, Element.getAttribute, Element.find] at hv
      split_ifs at hv <;> simp_all
    · intro name hm v hv
      simp only [intAttributes, List.mem_cons, List.mem_singleton, List.not_mem_nil,
        or_false] at hm
      have eN : treeThreeBooleans.getAttribute "N_90khz" = none := by decide
      have eK : treeThreeBooleans.getAttribute "K_90khz" = none := by decide
      have eT : treeThreeBooleans.getAttribute "num_units_in_tick" = none := by decide
      rcases hm with hm | hm | hm <;> subst hm
      · rw [eN] at hv; cases hv
      · rw [eK] at hv; cases hv
      · rw [eT] at hv; cases hv
  have hf : ∃ err, fromText treeThreeBooleans = .error err :=
    (C12_fromText_failure treeThreeBooleans hw).1.mpr
      ⟨"picture_to_display_conversion", by simp [boolAttributes], by decide⟩
  ⟨hw, hf, by
    obtain ⟨err, he⟩ := hf
    rw [he, (C12_fromText_failure treeThreeBooleans hw).2.1 err he]⟩

/-- C13, as stated, fails: a tree with only three of the required booleans and
no optional attribute is rejected, because the code requires four booleans. -/
theorem C13_counterexample : ¬ ∃ r, fromText treeThreeBooleans = .ok r := by
  rintro ⟨r, h⟩
  have hc := ((fromText_eq_ok _ _).mp h).2.2.2.2.2.2
  have e : treeThreeBooleans.getAttribute "picture_to_display_conversion" = none := by decide
  rw [e] at hc
  cases hc

/-- C13, amended: a tree with the four required booleans and none of the three
optional attributes is accepted, and the record read from it has the booleans
of the tree and all three optionals unset. -/
theorem C13_required_booleans_only (tree : Element) (b1 b2 b3 b4 : Bool)
    (h1 : tree.getAttribute "hrd_management_valid" = some (.bool b1))
    (h2 : tree.getAttribute "fixed_frame_rate" = some (.bool b2))
    (h3 : tree.getAttribute "temporal_poc" = some (.bool b3))
    (h4 : tree.getAttribute "picture_to_display_conversion" = some (.bool b4))
    (hN : tree.getAttribute "N_90khz" = none) (hK : tree.getAttribute "K_90khz" = none)
    (hT : tree.getAttribute "num_units_in_tick" = none) :
    fromText tree =
      .ok { hrd_management_valid := b1, N_90khz := none, K_90khz := none,
            num_units_in_tick := none, fixed_frame_rate := b2, temporal_poc := b3,
            picture_to_display_conversion := b4 } :=
  (fromText_eq_ok _ _).mpr ⟨h1, hN, hK, hT, h2, h3, h4⟩

theorem C13_required_booleans_only_witness :
    fromText treeFourBooleans =
      .ok { hrd_management_valid := true, N_90khz := none, K_90khz := none,
            num_units_in_tick := none, fixed_frame_rate := false, temporal_poc := true,
            picture_to_display_conversion := false } :=
  C13_required_booleans_only treeFourBooleans true false true false (by decide) (by decide)
    (by decide) (by decide) (by decide) (by decide) (by decide)

/-- C14: `fromText` undoes `toText`, with no coupling requirement. For every
record (with 32-bit values), coupled or not, `toText` writes under each name
exactly what the record holds (the four booleans always, each optional integer
exactly when its field is set, nothing else), and `fromText (toText r)`
succeeds with a record equal to `r`. -/
theorem C14_fromText_toText (r : Record) (hr : r.isUInt32) :
    (∀ name, (toText r).getAttribute name = attrOf r name) ∧
    (∀ name ∈ boolAttributes, ∃ b, (toText r).getAttribute name = some (.bool b)) ∧
    ((toText r).getAttribute "N_90khz" = r.N_90khz.map AttrValue.int) ∧
    ((toText r).getAttribute "K_90khz" = r.K_90khz.map AttrValue.int) ∧
    ((toText r).getAttribute "num_units_in_tick" = r.num_units_in_tick.map AttrValue.int) ∧
    fromText (toText r) = .ok r := by
  refine ⟨toText_getAttribute r, ?_, ?_, ?_, ?_, fromText_toText r hr⟩
  · intro name hm
    simp only [boolAttributes, List.mem_cons, List.mem_singleton, List.not_mem_nil,
      or_false] at hm
    rw [toText_getAttribute]
    rcases hm with hm | hm | hm | hm <;> subst hm <;> simp [attrOf]
  · rw [toText_getAttribute]; simp [attrOf]
  · rw [toText_getAttribute]; simp [attrOf]
  · rw [toText_getAttribute]; simp [attrOf]

theorem C14_fromText_toText_witness :
    sampleOrphanClock.isUInt32 ∧ ¬ sampleOrphanClock.coupled ∧
    fromText (toText sampleOrphanClock) = .ok sampleOrphanClock :=
  ⟨by simp [Record.isUInt32, sampleOrphanClock], by simp [Record.coupled, sampleOrphanClock],
   (C14_fromText_toText sampleOrphanClock (by simp [Record.isUInt32, sampleOrphanClock])).2.2.2.2.2⟩

/-! ## Further claims on the binary form and the display routine -/

/-- C15: the display of a 0-length input reads no byte, writes no field line
and calls the extra-data fallback on the empty remaining input (pointer at the
start, size 0). -/
theorem C15_render_empty (beyond : Nat → Nat) :
    render [] beyond = { lines := [], accesses := [], data := 0, size := 0 } := by
  rfl

/-- C16: the serialized length is fixed by field presence alone: 2 bytes when
`num_units_in_tick` is unset, 7 bytes when it is set and `N_90khz`, `K_90khz`
are not both set, 15 bytes when all three are set; two records with the same
presence pattern have the same length, whatever their booleans and values. -/
theorem C16_serialized_length (r : Record) :
    (r.num_units_in_tick.isSome = false → (serialize r).length = 2) ∧
    (r.num_units_in_tick.isSome = true → (r.N_90khz.isSome && r.K_90khz.isSome) = false →
      (serialize r).length = 7) ∧
    (r.num_units_in_tick.isSome = true → r.N_90khz.isSome = true → r.K_90khz.isSome = true →
      (serialize r).length = 15) ∧
    (∀ r2 : Record, r2.num_units_in_tick.isSome = r.num_units_in_tick.isSome →
      r2.N_90khz.isSome = r.N_90khz.isSome → r2.K_90khz.isSome = r.K_90khz.isSome →
      (serialize r2).length = (serialize r).length) := by
  refine ⟨?_, ?_, ?_, ?_⟩
  · intro h; rw [serialize_length, h]; rfl
  · intro h1 h2; rw [serialize_length, h1, h2]; rfl
  · intro h1 h2 h3; rw [serialize_length, h1, h2, h3]; rfl
  · intro r2 h1 h2 h3; rw [serialize_length, serialize_length, h1, h2, h3]

theorem C16_serialized_length_witness :
    (serialize sampleOrphanClock).length = 2 ∧
    (serialize { sampleFull with K_90khz := none }).length = 7 ∧
    (serialize sampleFull).length = 15 ∧
    (serialize { sampleFull with hrd_management_valid := false }).length =
      (serialize sampleFull).length :=
  ⟨(C16_serialized_length sampleOrphanClock).1 rfl,
   (C16_serialized_length { sampleFull with K_90khz := none }).2.1 rfl rfl,
   (C16_serialized_length sampleFull).2.2.1 rfl rfl rfl,
   (C16_serialized_length sampleFull).2.2.2 _ rfl rfl rfl⟩

/-- C17: the binary round trip normalizes and is idempotent. For every record
(with 32-bit values, and no invariant assumed) `deserialize (serialize r)`
succeeds and consumes every byte; the record `r.normalize` it yields
satisfies the coupling invariant, keeps the four booleans and
`num_units_in_tick` of `r`, and serializes to the same bytes as `r`. -/
theorem C17_round_trip_normalizes (r : Record) (hr : r.isUInt32) :
    deserialize (serialize r) = .ok (r.normalize, ⟨[]⟩) ∧
    r.normalize.coupled ∧
    r.normalize.hrd_management_valid = r.hrd_management_valid ∧
    r.normalize.fixed_frame_rate = r.fixed_frame_rate ∧
    r.normalize.temporal_poc = r.temporal_poc ∧
    r.normalize.picture_to_display_conversion = r.picture_to_display_conversion ∧
    r.normalize.num_units_in_tick = r.num_units_in_tick ∧
    serialize r.normalize = serialize r := by
  refine ⟨deserialize_serialize r, normalize_coupled r, rfl, rfl, rfl, rfl, ?_,
    serialize_normalize r⟩
  obtain ⟨hrd, N, K, T, ffr, tpoc, ptdc⟩ := r
  cases T with
  | none => rfl
  | some t =>
    have ht : t < 2 ^ 32 := hr.2.2 t rfl
    show some (t % 2 ^ 32) = some t
    rw [Nat.mod_eq_of_lt ht]

theorem C17_round_trip_normalizes_witness :
    sampleOrphanClock.isUInt32 ∧
    deserialize (serialize sampleOrphanClock) = .ok (sampleOrphanClock.normalize, ⟨[]⟩) ∧
    sampleOrphanClock.normalize.coupled ∧
    serialize sampleOrphanClock.normalize = serialize sampleOrphanClock :=
  ⟨by simp [Record.isUInt32, sampleOrphanClock],
   (C17_round_trip_normalizes sampleOrphanClock (by simp [Record.isUInt32, sampleOrphanClock])).1,
   (C17_round_trip_normalizes sampleOrphanClock
    (by simp [Record.isUInt32, sampleOrphanClock])).2.1,
   (C17_round_trip_normalizes sampleOrphanClock
    (by simp [Record.isUInt32, sampleOrphanClock])).2.2.2.2.2.2.2⟩

/-- C18: re-encoding a decoded payload changes reserved bits only. For every
byte sequence `b` that `deserialize` accepts while consuming all of `b`, the
bytes `serialize` gives for the decoded record have the length of `b` and are
`b` with every reserved bit set to 1; hence they equal `b` exactly when all
reserved bits of `b` are 1. -/
theorem C18_reencode_sets_reserved_bits (b : List Nat) (r : Record) (hb : isBytes b)
    (h : deserialize b = .ok (r, ⟨[]⟩)) :
    (serialize r).length = b.length ∧ serialize r = setReserved b ∧
      (serialize r = b ↔ reservedAllOnes b) := by
  have e := reencode b r hb h
  refine ⟨by rw [e, setReserved_length], e, ?_⟩
  rw [e]
  exact setReserved_eq_self_iff b

theorem C18_reencode_sets_reserved_bits_witness :
    isBytes [0x01, 0x12, 0, 0, 3, 233, 0xA0] ∧
    deserialize [0x01, 0x12, 0, 0, 3, 233, 0xA0] =
      .ok ({ Record.default with num_units_in_tick := some 1001, fixed_frame_rate := true,
                                 picture_to_display_conversion := true }, ⟨[]⟩) ∧
    serialize { Record.default with num_units_in_tick := some 1001, fixed_frame_rate := true,
                                    picture_to_display_conversion := true } =
      [0x7F, 0x7F, 0, 0, 3, 233, 0xBF] :=
  ⟨by unfold isBytes; decide, rfl,
   (C18_reencode_sets_reserved_bits [0x01, 0x12, 0, 0, 3, 233, 0xA0] _
    (by unfold isBytes; decide) rfl).2.1⟩

end AVCTimingAndHRD

